import Mathlib

/-!
Verification of the structure-extraction engine of
`gabes-machado/portal-leis-brasileiras`.

The repository holds two snapshots of the scraper:
* `src/scraping/...` (the newer one): `utils/text_processor.py`,
  `utils/html_parser.py`, `utils/constitution_structure.py`;
* `src/scraper/...` (the older one): `utils/constitution_structure.py`.

Python strings are modelled as lists of characters (`Str`), Python dicts
(which preserve insertion order, update in place on an existing key and
append on a new key) as association lists with the `dictInsert`/`dictFind`
helpers, and the object graph of the tree builders as an arena: a list of
elements addressed by index, so that the aliasing between the builder's
`current_structure` slots and the nodes already hung in the tree is exact.
-/

/-- A Python `str`, as its sequence of characters. -/
abbrev Str := List Char

/-- `d[k] = v` on an insertion-ordered Python dict: replace in place when the
key is present, append otherwise. -/
def dictInsert {α β : Type} [DecidableEq α] (l : List (α × β)) (k : α) (v : β) :
    List (α × β) :=
  if l.any (fun p => p.1 = k) then
    l.map (fun p => if p.1 = k then (k, v) else p)
  else
    l ++ [(k, v)]

/-- `d.get(k)` on an insertion-ordered Python dict. -/
def dictFind {α β : Type} [DecidableEq α] (l : List (α × β)) (k : α) : Option β :=
  (l.find? (fun p => p.1 = k)).map (fun p => p.2)

/-- The characters of an ASCII string, uppercased (`str.upper()`; the kind
labels fed to the builders are ASCII). -/
def asciiUpperChar (c : Char) : Char :=
  if 'a' ≤ c ∧ c ≤ 'z' then Char.ofNat (c.toNat - 32) else c

/-- `str.lower()` on an ASCII string, one character. -/
def asciiLowerChar (c : Char) : Char :=
  if 'A' ≤ c ∧ c ≤ 'Z' then Char.ofNat (c.toNat + 32) else c

/-- Replace the object at index `i` by `f` of it: a mutation of one object of
the Python heap, with the heap as an arena list. -/
def updateAt {γ : Type} (arena : List γ) (i : Nat) (f : γ → γ) : List γ :=
  match arena.get? i with
  | some e => arena.set i (f e)
  | none => arena

/-- `str.upper()` on an ASCII string. -/
def asciiUpper (s : String) : String := ⟨s.data.map asciiUpperChar⟩

/-- `str.lower()` on an ASCII string. -/
def asciiLower (s : String) : String := ⟨s.data.map asciiLowerChar⟩

/-! ## Roman-numeral codec (`src/scraping/src/utils/text_processor.py`) -/

namespace TextProcessor

/-- `values` in `TextProcessor._roman_to_int` (lines 180-183). -/
def romanValue : Char → Nat
  | 'I' => 1
  | 'V' => 5
  | 'X' => 10
  | 'L' => 50
  | 'C' => 100
  | 'D' => 500
  | 'M' => 1000
  | _ => 0

/-- `TextProcessor.ROMAN_CHARS` (line 26). -/
def romanChars : List Char := ['I', 'V', 'X', 'L', 'C', 'D', 'M']

/-- `TextProcessor.VALID_ROMAN_PAIRS` (lines 27-35): for each character, the
characters allowed to follow it. -/
def validRomanPairs : Char → List Char
  | 'I' => ['I', 'V', 'X']
  | 'V' => ['I']
  | 'X' => ['I', 'V', 'X', 'L', 'C']
  | 'L' => ['I', 'V', 'X']
  | 'C' => ['I', 'V', 'X', 'L', 'C', 'D', 'M']
  | 'D' => ['I', 'V', 'X', 'L', 'C']
  | 'M' => ['I', 'V', 'X', 'L', 'C', 'D', 'M']
  | _ => []

/-- The pair loop of `_is_valid_roman_numeral` (lines 157-161): every adjacent
pair `(numeral[i], numeral[i+1])` must be in the legal-successor table. -/
def validPairsOk : Str → Bool
  | [] => true
  | [_] => true
  | a :: b :: rest => decide (b ∈ validRomanPairs a) && validPairsOk (b :: rest)

/-- `TextProcessor._is_valid_roman_numeral` (lines 142-163): an empty string or
a character outside `ROMAN_CHARS` fails, then every adjacent pair is checked. -/
def isValidRomanNumeral (s : Str) : Bool :=
  !s.isEmpty && s.all (fun c => decide (c ∈ romanChars)) && validPairsOk s

/-- The loop of `_roman_to_int` (lines 185-196), consuming the reversed string:
a value is added when it is `>=` the immediately previously scanned value
(`prev_value`), subtracted otherwise. -/
def romanToIntAux : Str → Nat → Int → Int
  | [], _, total => total
  | c :: rest, prev, total =>
    let v := romanValue c
    if prev ≤ v then romanToIntAux rest v (total + (v : Int))
    else romanToIntAux rest v (total - (v : Int))

/-- `TextProcessor._roman_to_int` (lines 165-196). -/
def romanToInt (s : Str) : Int := romanToIntAux s.reverse 0 0

/-- The spec's reference conversion (spec.md section 4.1, stated in its words):
scan right to left accumulating the running maximum seen so far from the
right; add a digit value when it is `>=` that running maximum, else subtract
it. -/
def specRomanToIntAux : Str → Nat → Int → Int
  | [], _, total => total
  | c :: rest, m, total =>
    let v := romanValue c
    if m ≤ v then specRomanToIntAux rest v (total + (v : Int))
    else specRomanToIntAux rest m (total - (v : Int))

/-- The spec's reference conversion, on the whole string. -/
def specRomanToInt (s : Str) : Int := specRomanToIntAux s.reverse 0 0

/-- On the reversed string: every digit that is `>=` the previously scanned
digit (`prev`) is also `>=` the running maximum (`m`) of all digits scanned so
far.  Exactly on such inputs do the implemented conversion and the spec's
reference conversion take the same add/subtract branch at every step. -/
def addCompatible : Str → Nat → Nat → Bool
  | [], _, _ => true
  | c :: rest, prev, m =>
    let v := romanValue c
    (decide (v < prev) || decide (m ≤ v)) && addCompatible rest v (max m v)

theorem romanToIntAux_eq_spec (r : Str) :
    ∀ (prev m : Nat) (t : Int), prev ≤ m → addCompatible r prev m = true →
      romanToIntAux r prev t = specRomanToIntAux r m t := by
  induction r with
  | nil => intro prev m t _ _; rfl
  | cons c rest ih =>
    intro prev m t hpm hc
    simp only [addCompatible, Bool.and_eq_true, Bool.or_eq_true,
      decide_eq_true_eq] at hc
    obtain ⟨hbr, hrest⟩ := hc
    by_cases hm : m ≤ romanValue c
    · have hp : prev ≤ romanValue c := le_trans hpm hm
      have hmax : max m (romanValue c) = romanValue c := Nat.max_eq_right hm
      rw [hmax] at hrest
      simp only [romanToIntAux, specRomanToIntAux, if_pos hp, if_pos hm]
      exact ih (romanValue c) (romanValue c) _ le_rfl hrest
    · have hv : romanValue c < prev := by
        rcases hbr with h | h
        · exact h
        · exact absurd h hm
      have hp : ¬ prev ≤ romanValue c := not_le_of_lt hv
      have hvm : romanValue c ≤ m := le_of_lt (lt_of_lt_of_le hv hpm)
      have hmax : max m (romanValue c) = m := Nat.max_eq_left hvm
      rw [hmax] at hrest
      simp only [romanToIntAux, specRomanToIntAux, if_neg hp, if_neg hm]
      exact ih (romanValue c) m _ hvm hrest

/-- C6: the implemented right-to-left conversion (compare with the previous
digit) agrees with the spec's reference algorithm (compare with the running
maximum) on inputs accepted by `validate` whose digits satisfy
`addCompatible`: whenever a digit is `>=` its right neighbour it is `>=`
every digit to its right.  Without that restriction the claim is false
(see the counterexample `VIX`). -/
theorem roman_prev_vs_max_agree (s : Str) :
    isValidRomanNumeral s = true → addCompatible s.reverse 0 0 = true →
      romanToInt s = specRomanToInt s := by
  intro _ hc
  exact romanToIntAux_eq_spec s.reverse 0 0 0 le_rfl hc

/-- Witness for C6 at the concrete validated numeral `MCMXCIX`. -/
theorem roman_prev_vs_max_agree_witness :
    isValidRomanNumeral ['M', 'C', 'M', 'X', 'C', 'I', 'X'] = true ∧
    addCompatible (['M', 'C', 'M', 'X', 'C', 'I', 'X'] : Str).reverse 0 0 = true ∧
    romanToInt ['M', 'C', 'M', 'X', 'C', 'I', 'X'] =
      specRomanToInt ['M', 'C', 'M', 'X', 'C', 'I', 'X'] :=
  ⟨by decide, by decide,
    roman_prev_vs_max_agree ['M', 'C', 'M', 'X', 'C', 'I', 'X']
      (by decide) (by decide)⟩

/-- C6 counterexample: `VIX` passes `validate` (`V` may be followed by `I`,
`I` by `X`), the implemented conversion returns `14`, the spec's reference
algorithm returns `4`. -/
theorem roman_vix_cex :
    isValidRomanNumeral ['V', 'I', 'X'] = true ∧
    romanToInt ['V', 'I', 'X'] = 14 ∧
    specRomanToInt ['V', 'I', 'X'] = 4 ∧ (14 : Int) ≠ 4 := by
  refine ⟨by decide, by decide, by decide, by decide⟩

theorem validPairsOk_iff (s : Str) :
    validPairsOk s = true ↔
      List.Chain' (fun a b => b ∈ validRomanPairs a) s := by
  induction s with
  | nil => simp [validPairsOk]
  | cons a rest ih =>
    cases rest with
    | nil => simp [validPairsOk]
    | cons b l =>
      simp only [validPairsOk, Bool.and_eq_true, decide_eq_true_eq,
        List.chain'_cons]
      exact and_congr Iff.rfl ih

/-- C8 (amended): `validate` returns true exactly when the string is
nonempty, every character is one of `I,V,X,L,C,D,M`, and every adjacent pair
is in the legal-successor table; together with the concrete evaluations
`IV=4`, `IX=9`, `XL=40`, `MCMXCIX=1999` and `validate("ILC")=false`. -/
theorem roman_validate_characterization :
    (∀ s : Str, isValidRomanNumeral s = true ↔
      (s ≠ [] ∧ (∀ c ∈ s, c ∈ romanChars) ∧
        List.Chain' (fun a b => b ∈ validRomanPairs a) s)) ∧
    romanToInt ['I', 'V'] = 4 ∧
    romanToInt ['I', 'X'] = 9 ∧
    romanToInt ['X', 'L'] = 40 ∧
    romanToInt ['M', 'C', 'M', 'X', 'C', 'I', 'X'] = 1999 ∧
    isValidRomanNumeral ['I', 'L', 'C'] = false := by
  refine ⟨fun s => ?_, by decide, by decide, by decide, by decide, by decide⟩
  simp only [isValidRomanNumeral, Bool.and_eq_true, Bool.not_eq_true',
    List.isEmpty_eq_false_iff_exists_mem, List.all_eq_true, decide_eq_true_eq,
    validPairsOk_iff]
  constructor
  · rintro ⟨⟨hne, hall⟩, hchain⟩
    refine ⟨?_, hall, hchain⟩
    rcases hne with ⟨x, hx⟩
    intro h; rw [h] at hx; exact absurd hx (List.not_mem_nil x)
  · rintro ⟨hne, hall, hchain⟩
    refine ⟨⟨?_, hall⟩, hchain⟩
    cases s with
    | nil => exact absurd rfl hne
    | cons a l => exact ⟨a, List.mem_cons_self a l⟩

/-- C8 counterexample: the claim's characterization ("every character is in
the set and every adjacent pair is legal") holds vacuously for the empty
string, yet `validate("")` is false (`_is_valid_roman_numeral` rejects an
empty string first). -/
theorem roman_validate_empty_cex :
    isValidRomanNumeral [] = false ∧
    (∀ c ∈ ([] : Str), c ∈ romanChars) ∧
    List.Chain' (fun a b => b ∈ validRomanPairs a) ([] : Str) := by
  refine ⟨by decide, ?_, List.chain'_nil⟩
  intro c hc; exact absurd hc (List.not_mem_nil c)

end TextProcessor

/-! ## Hierarchy builder, newer variant
(`src/scraping/src/utils/constitution_structure.py`) -/

namespace ConstitutionStructure

/-- `StructureType` (lines 15-26). -/
inductive StructureType where
  | PREAMBULO
  | TITULO
  | CAPITULO
  | SECAO
  | SUBSECAO
  | ARTIGO
  | PARAGRAFO
  | INCISO
  | ALINEA
  | ADCT
deriving DecidableEq

/-- The enum values (`StructureType.<member>.value`, lines 17-26). -/
def StructureType.value : StructureType → String
  | .PREAMBULO => "PREAMBULO"
  | .TITULO => "TITULO"
  | .CAPITULO => "CAPITULO"
  | .SECAO => "SECAO"
  | .SUBSECAO => "SUBSECAO"
  | .ARTIGO => "ARTIGO"
  | .PARAGRAFO => "PARAGRAFO"
  | .INCISO => "INCISO"
  | .ALINEA => "ALINEA"
  | .ADCT => "ADCT"

/-- `ConstitutionProcessor._get_hierarchy_level` (lines 119-141). -/
def hierarchyLevel : StructureType → Nat
  | .PREAMBULO => 0
  | .TITULO => 1
  | .CAPITULO => 2
  | .SECAO => 3
  | .SUBSECAO => 4
  | .ARTIGO => 5
  | .PARAGRAFO => 6
  | .INCISO => 7
  | .ALINEA => 8
  | .ADCT => 1

/-- `type_mapping` in `ConstitutionProcessor._get_element_key` (lines 153-163):
`PREAMBULO` has no entry (looking it up would raise `KeyError`). -/
def typeBaseKey : StructureType → Option String
  | .PREAMBULO => none
  | .TITULO => some "titulos"
  | .CAPITULO => some "capitulos"
  | .SECAO => some "secoes"
  | .SUBSECAO => some "subsecoes"
  | .ARTIGO => some "artigos"
  | .PARAGRAFO => some "paragrafos"
  | .INCISO => some "incisos"
  | .ALINEA => some "alineas"
  | .ADCT => some "adct"

/-- One `{"classe", "numero", "texto"}` record appended by
`ConstitutionalElement.add_content` (lines 58-71). -/
structure ContentEntry where
  classe : String
  numero : Option String
  texto : String
deriving DecidableEq

/-- A value of the `children` dict of `ConstitutionalElement`: either an
element stored directly under an un-numbered key, or a number-keyed dict of
elements.  Elements are referred to by arena index. -/
inductive ChildVal where
  | single (idx : Nat)
  | numbered (m : List (String × Nat))
deriving DecidableEq

/-- `ConstitutionalElement` (lines 28-71).  `children` and the numbered maps
hold arena indices in place of the Python object references. -/
structure Element where
  type : StructureType
  number : Option String := none
  title : Option String := none
  text : Option String := none
  children : List (String × ChildVal) := []
  content : List ContentEntry := []
deriving DecidableEq

/-- `ConstitutionalElement.add_child` (lines 38-56), with the
`key.split('/')` already performed (`_get_element_key` builds the key as
`base_key` or `base_key/number`, and the numbers never contain `/`):
a numbered child goes into the number-keyed dict under `base_key`, creating
it if absent; when `children[base_key]` exists but is not a dict the call
silently does nothing; an un-numbered child is stored directly under the key. -/
def Element.addChild (self : Element) (baseKey : String) (number : Option String)
    (childIdx : Nat) : Element :=
  match number with
  | some num =>
    match dictFind self.children baseKey with
    | none =>
      { self with children :=
          dictInsert self.children baseKey (ChildVal.numbered [(num, childIdx)]) }
    | some (ChildVal.numbered m) =>
      { self with children :=
          dictInsert self.children baseKey (ChildVal.numbered (dictInsert m num childIdx)) }
    | some (ChildVal.single _) => self
  | none =>
    { self with children := dictInsert self.children baseKey (ChildVal.single childIdx) }

/-- `ConstitutionalElement.add_content` (lines 58-71). -/
def Element.addContent (self : Element) (contentType : String)
    (number : Option String) (text : String) : Element :=
  { self with content := self.content ++ [⟨contentType, number, text⟩] }

/-- The state of `ConstitutionProcessor` (lines 112-117): the object graph as
an arena (index 0 = `self.root`, index 1 = `self.adct`) and
`self.current_structure` as an insertion-ordered dict from type to arena
index. -/
structure ProcState where
  arena : List Element
  current : List (StructureType × Nat)
deriving DecidableEq

def rootIdx : Nat := 0

def adctIdx : Nat := 1

/-- `ConstitutionProcessor.__init__` (lines 112-117). -/
def initState : ProcState :=
  { arena := [{ type := StructureType.PREAMBULO }, { type := StructureType.ADCT }],
    current := [] }

/-- `ConstitutionProcessor._update_structure` (lines 174-192): pop every
slot whose level is `>=` the new element's level, then set the new slot. -/
def updateStructure (s : ProcState) (t : StructureType) (idx : Nat) : ProcState :=
  let lvl := hierarchyLevel t
  let kept := s.current.filter (fun p => hierarchyLevel p.1 < lvl)
  { s with current := dictInsert kept t idx }

/-- The parent-search loop of `_place_element` (lines 202-207): start from
`self.root` and keep the last slot whose level is strictly below the new
element's level. -/
def scanParent (cur : List (StructureType × Nat)) (lvl : Nat) : Nat :=
  cur.foldl (fun acc p => if hierarchyLevel p.1 < lvl then p.2 else acc) rootIdx

/-- `ConstitutionProcessor._place_element` (lines 194-213). -/
def placeElement (s : ProcState) (t : StructureType) (number : Option String)
    (idx : Nat) : ProcState :=
  let parentIdx := scanParent s.current (hierarchyLevel t)
  match typeBaseKey t with
  | none => s
  | some base =>
    let keyNumber : Option String :=
      match number with
      | some n => if n = "" then none else some n
      | none => none
    { s with arena := updateAt s.arena parentIdx (fun e => e.addChild base keyNumber idx) }

/-- `StructureType[type_str.upper()]` (line 226): `None` models the
`KeyError` for an unknown member name. -/
def parseStructureType (ts : String) : Option StructureType :=
  let u := asciiUpper ts
  if u = "PREAMBULO" then some StructureType.PREAMBULO
  else if u = "TITULO" then some StructureType.TITULO
  else if u = "CAPITULO" then some StructureType.CAPITULO
  else if u = "SECAO" then some StructureType.SECAO
  else if u = "SUBSECAO" then some StructureType.SUBSECAO
  else if u = "ARTIGO" then some StructureType.ARTIGO
  else if u = "PARAGRAFO" then some StructureType.PARAGRAFO
  else if u = "INCISO" then some StructureType.INCISO
  else if u = "ALINEA" then some StructureType.ALINEA
  else if u = "ADCT" then some StructureType.ADCT
  else none

/-- `ConstitutionProcessor.process_element` (lines 215-260).  An unknown
label raises `KeyError`, which `process_element` logs and re-raises and the
scrape loop (`scraper/constitution.py` lines 199-213) catches, logs and
skips, leaving the processor state unchanged — modelled by returning the
state as is.  `PREAMBULO` and `ADCT` tuples only append to the content of
their root; everything else becomes a new element that is threaded into the
hierarchy. -/
def processElement (s : ProcState) (typeStr : String) (number title : Option String)
    (text : String) : ProcState :=
  match parseStructureType typeStr with
  | none => s
  | some StructureType.PREAMBULO =>
    { s with arena := updateAt s.arena rootIdx (fun e => e.addContent "preambulo" none text) }
  | some StructureType.ADCT =>
    { s with arena := updateAt s.arena adctIdx (fun e => e.addContent "adct" number text) }
  | some t =>
    let element : Element :=
      { type := t, number := number, title := title,
        content := [⟨asciiLower t.value, number, text⟩] }
    let idx := s.arena.length
    let s1 : ProcState := { s with arena := s.arena ++ [element] }
    let s2 := updateStructure s1 t idx
    placeElement s2 t number idx

/-- One classified tuple `(element_type, number, title, text)` as yielded by
`HTMLParser.iter_constitutional_elements` and consumed by the scrape loop. -/
abbrev RawTuple := String × Option String × Option String × String

/-- The scrape loop of `scraper/constitution.py` (lines 199-213): feed every
tuple to `process_element` in order. -/
def runFrom (s : ProcState) : List RawTuple → ProcState
  | [] => s
  | (ts, n, t, txt) :: rest => runFrom (processElement s ts n t txt) rest

/-- A whole run of the newer builder from its initial state. -/
def runScraping (l : List RawTuple) : ProcState := runFrom initState l

/-- A serialized JSON-like value. -/
inductive JValue where
  | str (s : String)
  | jnull
  | arr (l : List JValue)
  | obj (l : List (String × JValue))

/-- A `numero` field: the string or JSON `null`. -/
def optStr : Option String → JValue
  | some s => JValue.str s
  | none => JValue.jnull

/-- One content record as `to_dict` emits it. -/
def contentToJ (c : ContentEntry) : JValue :=
  JValue.obj [("classe", JValue.str c.classe), ("numero", optStr c.numero),
    ("texto", JValue.str c.texto)]

/-- `ConstitutionalElement.to_dict` (lines 73-107), as the dict (list of
key/value pairs) it returns.  `fuel` bounds the recursion depth; every child
reference points to a later arena index, so `arena.length` is always enough
fuel. -/
def toDict (arena : List Element) : Nat → Nat → List (String × JValue)
  | 0, _ => []
  | fuel + 1, i =>
    match arena.get? i with
    | none => []
    | some e =>
      let base : List (String × JValue) :=
        if e.type = StructureType.PREAMBULO ∧ e.content ≠ [] then
          [("preambulo", JValue.arr (e.content.map contentToJ))]
        else if e.content ≠ [] then
          [("conteudo", JValue.arr (e.content.map contentToJ))]
        else []
      e.children.foldl (fun acc p =>
        match p.2 with
        | ChildVal.numbered m =>
          let cd := m.foldl (fun a q =>
            let d := toDict arena fuel q.2
            if d.isEmpty then a else a ++ [(q.1, JValue.obj d)]) []
          if cd.isEmpty then acc else acc ++ [(p.1, JValue.obj cd)]
        | ChildVal.single j =>
          let d := toDict arena fuel j
          if d.isEmpty then acc else acc ++ [(p.1, JValue.obj d)]) base

/-- A stream with a main `Title I` and `Article 1`, then the ADCT banner,
then the first transitional article. -/
def adctScenario : List RawTuple :=
  [("TITULO", some "I", some "T1", "tt"),
   ("ARTIGO", some "1", none, "main"),
   ("ADCT", none, some "banner", "banner"),
   ("ARTIGO", some "1", none, "trans")]

/-- C1, the code evaluated at the failing input: after the ADCT banner the
transitional root has received only the banner's content — its serialized
dict has the single key `conteudo`, so `adct.artigos` cannot exist — while
the post-banner `Article 1` was threaded into the main branch through the
still-open `Title I` slot, replacing the main branch's `artigos["1"]`
(which now holds the transitional article's text `trans`, not `main`). -/
theorem adct_articles_routed_to_main_branch :
    (runScraping adctScenario).arena.get? adctIdx =
      some { type := StructureType.ADCT,
             content := [⟨"adct", none, "banner"⟩] } ∧
    (toDict (runScraping adctScenario).arena
      (runScraping adctScenario).arena.length adctIdx).map Prod.fst = ["conteudo"] ∧
    (runScraping adctScenario).arena.get? 2 =
      some { type := StructureType.TITULO, number := some "I", title := some "T1",
             children := [("artigos", ChildVal.numbered [("1", 4)])],
             content := [⟨"titulo", some "I", "tt"⟩] } ∧
    (runScraping adctScenario).arena.get? 4 =
      some { type := StructureType.ARTIGO, number := some "1",
             content := [⟨"artigo", some "1", "trans"⟩] } := by
  refine ⟨by decide, by decide, by decide, by decide⟩

/-- The same `(Article, "5")` twice under the same parent (the root: no other
slot is open). -/
def duplicateScenario : List RawTuple :=
  [("ARTIGO", some "5", none, "first"), ("ARTIGO", some "5", none, "second")]

/-- C2 counterexample: feeding `(Article,"5")` twice leaves exactly one child
keyed `"5"` — but it is arena index 3, the SECOND occurrence (text
`second`), not the first: `dictInsert` (Python `d[k] = v`) silently
overwrites, nothing is discarded with a warning. -/
theorem duplicate_artigo_overwrites_cex :
    (runScraping duplicateScenario).arena.get? rootIdx =
      some { type := StructureType.PREAMBULO,
             children := [("artigos", ChildVal.numbered [("5", 3)])] } ∧
    (runScraping duplicateScenario).arena.get? 3 =
      some { type := StructureType.ARTIGO, number := some "5",
             content := [⟨"artigo", some "5", "second"⟩] } ∧
    ("second" : String) ≠ "first" := by
  refine ⟨by decide, by decide, by decide⟩

/-- C7 counterexample: with `Article 1` open (the deepest open element), a
tuple with the unrecognized kind label `FOO` leaves the builder state exactly
unchanged — in particular its text `lost` is appended to no element's content
sequence, instead of being treated as content-continuation. -/
theorem unknown_kind_drops_text_cex :
    parseStructureType "FOO" = none ∧
    processElement (runScraping [("ARTIGO", some "1", none, "a1")])
        "FOO" none none "lost" =
      runScraping [("ARTIGO", some "1", none, "a1")] ∧
    (∀ e ∈ (processElement (runScraping [("ARTIGO", some "1", none, "a1")])
        "FOO" none none "lost").arena, ∀ c ∈ e.content, c.texto ≠ "lost") := by
  refine ⟨by decide, by decide, by decide⟩

end ConstitutionStructure

/-! ## Paragraph classifier (`src/scraping/src/utils/html_parser.py`) -/

namespace HTMLParser

/-- `str.upper()` restricted to the Latin-1 letters that occur in the
Portuguese texts: ASCII `a-z` and `à-þ` (except `÷`) map down by 32
code points, everything else is unchanged. -/
def latinUpperChar (c : Char) : Char :=
  if ('a' ≤ c ∧ c ≤ 'z') ∨ (0xE0 ≤ c.toNat ∧ c.toNat ≤ 0xFE ∧ c.toNat ≠ 0xF7) then
    Char.ofNat (c.toNat - 32)
  else c

/-- `str.lower()` on the same Latin-1 letter range. -/
def latinLowerChar (c : Char) : Char :=
  if ('A' ≤ c ∧ c ≤ 'Z') ∨ (0xC0 ≤ c.toNat ∧ c.toNat ≤ 0xDE ∧ c.toNat ≠ 0xD7) then
    Char.ofNat (c.toNat + 32)
  else c

def latinUpper (s : Str) : Str := s.map latinUpperChar

def latinLower (s : Str) : Str := s.map latinLowerChar

/-- Word-splitting loop: `acc` holds the characters of the word in progress,
reversed. -/
def splitWsAux : Str → Str → List Str
  | [], acc => if acc.isEmpty then [] else [acc.reverse]
  | c :: rest, acc =>
    if c.isWhitespace then
      if acc.isEmpty then splitWsAux rest []
      else acc.reverse :: splitWsAux rest []
    else splitWsAux rest (c :: acc)

/-- `text.strip().split()`: the whitespace-separated words (no empties). -/
def splitWs (s : Str) : List Str := splitWsAux s []

/-- `HTMLParser._clean_text` (lines 154-158):
`" ".join(text.strip().split())`. -/
def cleanText (s : Str) : Str := List.intercalate [' '] (splitWs s)

/-- Does `needle` occur in `hay` (Python `needle in hay`)? -/
def containsSub (hay needle : Str) : Bool :=
  hay.tails.any (fun t => needle.isPrefixOf t)

/-- `RegexPatterns.ROMAN_NUMERAL` searched by `_extract_roman_numeral`
(lines 207-218): the first maximal run of characters from `IVXLCDM` (the
subsequent `issubset` check always succeeds on such a run). -/
def extractRomanNumeral : Str → Option Str
  | [] => none
  | c :: rest =>
    if c ∈ TextProcessor.romanChars then
      some ((c :: rest).takeWhile (fun d => decide (d ∈ TextProcessor.romanChars)))
    else extractRomanNumeral rest

/-- The keywords that disqualify a next paragraph from being a title
(`_extract_title`, lines 225-226). -/
def titleKeywords : List Str :=
  ["TÍTULO".data, "CAPÍTULO".data, "SEÇÃO".data, "SUBSEÇÃO".data,
   "ART.".data, "ATO DAS DISPOSIÇÕES".data]

/-- `HTMLParser._extract_title` (lines 220-230): the next paragraph's cleaned
text, provided it is nonempty and contains none of the keywords. -/
def extractTitle (np : Str) : Option Str :=
  let t := cleanText np
  if ¬t.isEmpty ∧ titleKeywords.all (fun kw => ¬containsSub (latinUpper t) kw) then
    some t
  else none

/-- Match the literal `w` at the head of `s`, returning the rest. -/
def matchLit (w s : Str) : Option Str :=
  if w.isPrefixOf s then some (s.drop w.length) else none

/-- The words of the `ADCT` banner pattern
`ATO\s+DAS\s+DISPOSIÇÕES\s+CONSTITUCIONAIS\s+TRANSITÓRIAS` (line 40). -/
def bannerWords : List Str :=
  ["ATO".data, "DAS".data, "DISPOSIÇÕES".data, "CONSTITUCIONAIS".data,
   "TRANSITÓRIAS".data]

/-- Match a sequence of literal words separated by `\s+` at the head of the
input. -/
def matchSeq : List Str → Str → Bool
  | [], _ => true
  | [w], s => w.isPrefixOf s
  | w :: w2 :: ws, s =>
    match matchLit w s with
    | some rest =>
      match rest with
      | c :: s2 =>
        c.isWhitespace && matchSeq (w2 :: ws) (s2.dropWhile (fun d => d.isWhitespace))
      | [] => false
    | none => false

/-- `self.patterns.ADCT.search(text)` (case-insensitive search for the
banner phrase, `_check_adct` line 162): some suffix of the uppercased text
starts with the banner words. -/
def adctSearch (text : Str) : Bool :=
  (latinUpper text).tails.any (fun t => matchSeq bannerWords t)

/-- `HTMLParser._check_adct` (lines 160-164): on a match it returns
`(None, text)` — the matched paragraph's own text becomes the `title`
component of the yielded tuple. -/
def checkAdct (text : Str) (_ : Option Str) : Option (Option Str × Option Str) :=
  if adctSearch text then some (none, some text) else none

/-- `HTMLParser._check_structural_element` (lines 166-173): keyword
containment in the uppercased text; the Roman numeral is extracted from the
text and the title from the (lookahead) next paragraph. -/
def checkStructural (keyword : Str) (text : Str) (nextP : Option Str) :
    Option (Option Str × Option Str) :=
  if containsSub (latinUpper text) keyword then
    some (extractRomanNumeral text,
      match nextP with
      | some np => extractTitle np
      | none => none)
  else none

def checkTitulo (text : Str) (np : Option Str) : Option (Option Str × Option Str) :=
  checkStructural "TÍTULO".data text np

def checkCapitulo (text : Str) (np : Option Str) : Option (Option Str × Option Str) :=
  checkStructural "CAPÍTULO".data text np

def checkSecao (text : Str) (np : Option Str) : Option (Option Str × Option Str) :=
  checkStructural "SEÇÃO".data text np

def checkSubsecao (text : Str) (np : Option Str) : Option (Option Str × Option Str) :=
  checkStructural "SUBSEÇÃO".data text np

/-- `RegexPatterns.ARTICLE` = `Art\.\s*(\d+)` anchored at the start
(`_check_artigo` uses `.match`, line 188). -/
def artigoMatch (text : Str) : Bool :=
  match matchLit "Art.".data text with
  | some rest =>
    match rest.dropWhile (fun d => d.isWhitespace) with
    | c :: _ => c.isDigit
    | [] => false
  | none => false

/-- One attempt of `ARTICLE.search` at a given position: consume `Art.`,
optional whitespace, then the maximal (greedy `(\d+)`) digit run. -/
def artigoNumAt (s : Str) : Option Str :=
  match matchLit "Art.".data s with
  | some rest =>
    let digits := (rest.dropWhile (fun d => d.isWhitespace)).takeWhile (fun d => d.isDigit)
    if digits.isEmpty then none else some digits
  | none => none

/-- `HTMLParser._extract_article_number` (lines 232-239): the capture group
of the first position where `Art\.\s*(\d+)` matches. -/
def extractArticleNumber (text : Str) : Option Str :=
  text.tails.findSome? artigoNumAt

def checkArtigo (text : Str) (_ : Option Str) : Option (Option Str × Option Str) :=
  if artigoMatch text then some (extractArticleNumber text, none) else none

/-- `HTMLParser._check_paragrafo` (lines 192-195): the text starts with `§`
or its lowercase starts with `parágrafo`. -/
def paragrafoMatch (text : Str) : Bool :=
  (match text with
   | c :: _ => c = '§'
   | [] => false) ||
  "parágrafo".data.isPrefixOf (latinLower text)

/-- One attempt of `PARAGRAPH.search` = `§\s*(\d+)` at a given position. -/
def paragrafoNumAt (s : Str) : Option Str :=
  match s with
  | '§' :: rest =>
    let digits := (rest.dropWhile (fun d => d.isWhitespace)).takeWhile (fun d => d.isDigit)
    if digits.isEmpty then none else some digits
  | _ => none

/-- `HTMLParser._extract_paragraph_number` (lines 241-250): `único` when the
lowercased text contains it, else the first `§\s*(\d+)` capture. -/
def extractParagraphNumber (text : Str) : Option Str :=
  if containsSub (latinLower text) "único".data then some "único".data
  else text.tails.findSome? paragrafoNumAt

def checkParagrafo (text : Str) (_ : Option Str) : Option (Option Str × Option Str) :=
  if paragrafoMatch text then some (extractParagraphNumber text, none) else none

/-- `RegexPatterns.INCISO` = `^[IVXLCDM]+\s*[-–]` (`_is_inciso`, line 254). -/
def incisoMatch (text : Str) : Bool :=
  let run := text.takeWhile (fun c => decide (c ∈ TextProcessor.romanChars))
  if run.isEmpty then false
  else
    match (text.drop run.length).dropWhile (fun d => d.isWhitespace) with
    | c :: _ => c = '-' ∨ c = '–'
    | [] => false

/-- `HTMLParser._extract_inciso_number` (lines 256-263):
`^([IVXLCDM]+)`. -/
def extractIncisoNumber (text : Str) : Option Str :=
  let run := text.takeWhile (fun c => decide (c ∈ TextProcessor.romanChars))
  if run.isEmpty then none else some run

def checkInciso (text : Str) (_ : Option Str) : Option (Option Str × Option Str) :=
  if incisoMatch text then some (extractIncisoNumber text, none) else none

/-- `RegexPatterns.ALINEA` = `^[a-z]\)` (`_is_alinea`, line 267). -/
def alineaMatch (text : Str) : Bool :=
  match text with
  | a :: b :: _ => ('a' ≤ a ∧ a ≤ 'z') ∧ b = ')'
  | _ => false

/-- `HTMLParser._extract_alinea_letter` (lines 269-276): `^([a-z])`. -/
def extractAlineaLetter (text : Str) : Option Str :=
  match text with
  | a :: _ => if 'a' ≤ a ∧ a ≤ 'z' then some [a] else none
  | [] => none

def checkAlinea (text : Str) (_ : Option Str) : Option (Option Str × Option Str) :=
  if alineaMatch text then some (extractAlineaLetter text, none) else none

/-- The type of one element check: cleaned text and lookahead paragraph in,
`(number, title)` out on a match. -/
def ElementCheck : Type := Str → Option Str → Option (Option Str × Option Str)

/-- `element_checks` of `_process_paragraph` (lines 134-144), in source
order, each paired with the `ElementType` value string it yields. -/
def elementChecks : List (ElementCheck × String) :=
  [(checkAdct, "ADCT"), (checkTitulo, "TITULO"), (checkCapitulo, "CAPITULO"),
   (checkSecao, "SECAO"), (checkSubsecao, "SUBSECAO"), (checkArtigo, "ARTIGO"),
   (checkParagrafo, "PARAGRAFO"), (checkInciso, "INCISO"), (checkAlinea, "ALINEA")]

/-- The check loop of `_process_paragraph` (lines 146-152): the first check
that returns a result yields and stops. -/
def firstCheck : List (ElementCheck × String) → Str → Option Str →
    Option (String × Option Str × Option Str)
  | [], _, _ => none
  | (chk, ty) :: rest, text, np =>
    match chk text np with
    | some (n, t) => some (ty, n, t)
    | none => firstCheck rest text np

/-- `HTMLParser._process_paragraph` (lines 125-152): clean the text, return
nothing when it is empty, otherwise yield the tuple of the first matching
check (or nothing when no check matches). -/
def processParagraph (raw : Str) (nextP : Option Str) :
    Option (String × Option Str × Option Str × Str) :=
  let text := cleanText raw
  if text.isEmpty then none
  else
    match firstCheck elementChecks text nextP with
    | some (ty, n, t) => some (ty, n, t, text)
    | none => none

end HTMLParser

namespace HTMLParser

theorem firstCheck_none_iff (text : Str) (np : Option Str) :
    ∀ L : List (ElementCheck × String),
      (firstCheck L text np = none ↔ ∀ c ∈ L, c.1 text np = none) := by
  intro L
  induction L with
  | nil => simp [firstCheck]
  | cons hd rest ih =>
    obtain ⟨chk, ty0⟩ := hd
    simp only [firstCheck, List.mem_cons]
    cases hc : chk text np with
    | some r =>
      obtain ⟨n0, t0⟩ := r
      constructor
      · intro h; exact absurd h (by simp)
      · intro h
        have h2 : chk text np = none := h (chk, ty0) (Or.inl rfl)
        rw [hc] at h2
        exact absurd h2 (by simp)
    | none =>
      constructor
      · intro h c hmem
        rcases hmem with h1 | h2
        · rw [h1]; exact hc
        · exact (ih.mp h) c h2
      · intro h
        exact ih.mpr (fun c hmem => h c (Or.inr hmem))

theorem firstCheck_some_iff (text : Str) (np : Option Str) (ty : String)
    (n t : Option Str) :
    ∀ L : List (ElementCheck × String),
      (firstCheck L text np = some (ty, n, t) ↔
        ∃ L1 c L2, L = L1 ++ c :: L2 ∧ (∀ d ∈ L1, d.1 text np = none) ∧
          c.1 text np = some (n, t) ∧ ty = c.2) := by
  intro L
  induction L with
  | nil =>
    constructor
    · intro h; exact absurd h (by simp [firstCheck])
    · rintro ⟨L1, c, L2, hL, -, -, -⟩
      cases L1 <;> simp at hL
  | cons hd rest ih =>
    obtain ⟨chk, ty0⟩ := hd
    constructor
    · intro h
      simp only [firstCheck] at h
      cases hc : chk text np with
      | some r =>
        obtain ⟨n0, t0⟩ := r
        rw [hc] at h
        simp only [Option.some.injEq, Prod.mk.injEq] at h
        obtain ⟨h1, h2, h3⟩ := h
        refine ⟨[], (chk, ty0), rest, rfl, by simp, ?_, h1.symm⟩
        show chk text np = some (n, t)
        rw [hc, h2, h3]
      | none =>
        rw [hc] at h
        obtain ⟨L1, c, L2, hL, hall, hsome, hty⟩ := ih.mp h
        refine ⟨(chk, ty0) :: L1, c, L2, by simp [hL], ?_, hsome, hty⟩
        intro d hmem
        rcases List.mem_cons.mp hmem with h1 | h2
        · rw [h1]; show chk text np = none; exact hc
        · exact hall d h2
    · rintro ⟨L1, c, L2, hL, hall, hsome, hty⟩
      cases L1 with
      | nil =>
        simp only [List.nil_append] at hL
        have hc1 : (chk, ty0) = c := (List.cons.inj hL).1
        have hrest : rest = L2 := (List.cons.inj hL).2
        have hs : chk text np = some (n, t) := by
          rw [← hc1] at hsome; exact hsome
        have hty2 : ty = ty0 := by rw [← hc1] at hty; exact hty
        simp only [firstCheck]
        rw [hs, hty2]
      | cons d L1b =>
        simp only [List.cons_append] at hL
        have hd1 : (chk, ty0) = d := (List.cons.inj hL).1
        have hrest : rest = L1b ++ c :: L2 := (List.cons.inj hL).2
        have h3 : chk text np = none := by
          have hdnone : d.1 text np = none := hall d (List.mem_cons_self d L1b)
          rw [← hd1] at hdnone; exact hdnone
        simp only [firstCheck]
        rw [h3]
        exact ih.mpr ⟨L1b, c, L2, hrest,
          fun e he => hall e (List.mem_cons_of_mem d he), hsome, hty⟩
end HTMLParser

namespace HTMLParser

theorem classifier_first_match_wins (raw : Str) (np : Option Str) :
    (∀ (ty : String) (n t : Option Str) (txt : Str),
      processParagraph raw np = some (ty, n, t, txt) ↔
        (txt = cleanText raw ∧ txt.isEmpty = false ∧
          ∃ L1 c L2, elementChecks = L1 ++ c :: L2 ∧
            (∀ d ∈ L1, d.1 txt np = none) ∧
            c.1 txt np = some (n, t) ∧ ty = c.2)) ∧
    (processParagraph raw np = none ↔
      ((cleanText raw).isEmpty = true ∨
        ∀ c ∈ elementChecks, c.1 (cleanText raw) np = none)) := by
  constructor
  · intro ty n t txt
    constructor
    · intro h
      unfold processParagraph at h
      by_cases he : (cleanText raw).isEmpty
      · rw [if_pos he] at h; exact absurd h (by simp)
      · rw [if_neg he] at h
        cases hfc : firstCheck elementChecks (cleanText raw) np with
        | none => rw [hfc] at h; exact absurd h (by simp)
        | some r =>
          obtain ⟨ty0, n0, t0⟩ := r
          rw [hfc] at h
          simp only [Option.some.injEq, Prod.mk.injEq] at h
          obtain ⟨h1, h2, h3, h4⟩ := h
          refine ⟨h4.symm, by rw [← h4]; simpa using he, ?_⟩
          rw [← h4]
          exact (firstCheck_some_iff (cleanText raw) np ty n t elementChecks).mp
            (by rw [hfc, h1, h2, h3])
    · rintro ⟨htxt, hne, hsplit⟩
      subst htxt
      have hfc : firstCheck elementChecks (cleanText raw) np = some (ty, n, t) :=
        (firstCheck_some_iff (cleanText raw) np ty n t elementChecks).mpr hsplit
      unfold processParagraph
      rw [if_neg (by simp [hne]), hfc]
  · constructor
    · intro h
      unfold processParagraph at h
      by_cases he : (cleanText raw).isEmpty
      · exact Or.inl (by simpa using he)
      · rw [if_neg he] at h
        cases hfc : firstCheck elementChecks (cleanText raw) np with
        | none => exact Or.inr ((firstCheck_none_iff (cleanText raw) np elementChecks).mp hfc)
        | some r =>
          obtain ⟨ty0, n0, t0⟩ := r
          rw [hfc] at h
          exact absurd h (by simp)
    · intro h
      unfold processParagraph
      rcases h with h | h
      · rw [if_pos h]
      · by_cases he : (cleanText raw).isEmpty
        · rw [if_pos he]
        · rw [if_neg he, (firstCheck_none_iff (cleanText raw) np elementChecks).mpr h]

end HTMLParser

/-! ## The classifier feeding the builder
(`HTMLParser.iter_constitutional_elements` lines 90-111 driving
`ConstitutionProcessor` through `scraper/constitution.py` lines 196-213;
the `<p>` lookahead `find_next_sibling` is the next paragraph of the
stream, and the prelude `font`-tag yield is layout-driven and outside this
paragraph pipeline). -/

namespace Pipeline

/-- One paragraph through `_process_paragraph` and, when a tuple is yielded,
through `process_element`. -/
def stepParagraph (s : ConstitutionStructure.ProcState) (raw : Str)
    (np : Option Str) : ConstitutionStructure.ProcState :=
  match HTMLParser.processParagraph raw np with
  | none => s
  | some (ty, n, t, txt) =>
    ConstitutionStructure.processElement s ty (n.map (fun l => (⟨l⟩ : String)))
      (t.map (fun l => (⟨l⟩ : String))) (⟨txt⟩ : String)

/-- All paragraphs in document order, each classified with lookahead to the
next one. -/
def pipelineRun : ConstitutionStructure.ProcState → List Str →
    ConstitutionStructure.ProcState
  | s, [] => s
  | s, p :: rest => pipelineRun (stepParagraph s p rest.head?) rest

/-- An `Article 1` followed by a plain continuation paragraph that no
classification rule matches. -/
def contScenario : List Str :=
  ["Art. 1 A Republica.".data, "Plain continuation text.".data]

/-- C3 counterexample: the plain continuation paragraph is matched by no
rule, so the classifier yields nothing for it and the builder never sees it:
`artigos["1"]`'s content still holds only the article's own text, and the
continuation text `Plain continuation text.` appears in no element's content
anywhere — it is dropped, not appended to the deepest open element. -/
theorem continuation_text_dropped_cex :
    HTMLParser.processParagraph "Plain continuation text.".data none = none ∧
    (pipelineRun ConstitutionStructure.initState contScenario).arena.get? 2 =
      some { type := ConstitutionStructure.StructureType.ARTIGO, number := some "1",
             content := [⟨"artigo", some "1", "Art. 1 A Republica."⟩] } ∧
    (∀ e ∈ (pipelineRun ConstitutionStructure.initState contScenario).arena,
      ∀ c ∈ e.content, c.texto ≠ "Plain continuation text.") := by
  refine ⟨by decide, by decide, by decide⟩

/-- C3 (amended): a paragraph matched by no classification rule is discarded
by the classifier: no tuple is emitted, the builder is never invoked for it
and its state is left exactly as it was — the text is appended nowhere. -/
theorem unmatched_paragraph_discarded (s : ConstitutionStructure.ProcState)
    (raw : Str) (rest : List Str) :
    HTMLParser.processParagraph raw rest.head? = none →
      stepParagraph s raw rest.head? = s ∧
      pipelineRun s (raw :: rest) = pipelineRun s rest := by
  intro h
  have h1 : stepParagraph s raw rest.head? = s := by
    unfold stepParagraph; rw [h]
  refine ⟨h1, ?_⟩
  simp only [pipelineRun]
  rw [h1]

/-- Witness for the amended C3 at a concrete unmatched paragraph. -/
theorem unmatched_paragraph_discarded_witness :
    HTMLParser.processParagraph "e assim por diante no texto".data none = none ∧
    (stepParagraph ConstitutionStructure.initState
        "e assim por diante no texto".data none = ConstitutionStructure.initState ∧
      pipelineRun ConstitutionStructure.initState
          ["e assim por diante no texto".data] =
        pipelineRun ConstitutionStructure.initState []) :=
  ⟨by decide,
    unmatched_paragraph_discarded ConstitutionStructure.initState
      "e assim por diante no texto".data [] (by decide)⟩

end Pipeline

/-! ## Hierarchy builder, older variant
(`src/scraper/src/utils/constitution_structure.py`).  It shares the nine
non-`ADCT` structure kinds with the newer variant (its `StructureType` enum,
lines 14-23, has no `ADCT` member), so the same `StructureType` type is
reused and `"ADCT"` simply fails to parse. -/

namespace Scraper

open ConstitutionStructure (StructureType RawTuple)

/-- The older enum's values (lines 15-23): lowercase. `ADCT` is not a member
of that enum; it is given a value here only to keep the function total, and
no `Scraper` state can ever contain it (`sParse` never yields it). -/
def sValue : StructureType → String
  | StructureType.PREAMBULO => "preambulo"
  | StructureType.TITULO => "titulo"
  | StructureType.CAPITULO => "capitulo"
  | StructureType.SECAO => "secao"
  | StructureType.SUBSECAO => "subsecao"
  | StructureType.ARTIGO => "artigo"
  | StructureType.PARAGRAFO => "paragrafo"
  | StructureType.INCISO => "inciso"
  | StructureType.ALINEA => "alinea"
  | StructureType.ADCT => "adct"

/-- `hierarchy.index(t)` over `StructureType.get_hierarchy()` (lines 26-38).
`ADCT` gets the out-of-hierarchy sentinel 9 (unreachable: see `sValue`). -/
def sIndex : StructureType → Nat
  | StructureType.PREAMBULO => 0
  | StructureType.TITULO => 1
  | StructureType.CAPITULO => 2
  | StructureType.SECAO => 3
  | StructureType.SUBSECAO => 4
  | StructureType.ARTIGO => 5
  | StructureType.PARAGRAFO => 6
  | StructureType.INCISO => 7
  | StructureType.ALINEA => 8
  | StructureType.ADCT => 9

/-- `ConstitutionalElement` of the older variant (lines 40-47): children are
a list of references (arena indices), and there is a parent back-reference. -/
structure SElement where
  type : StructureType
  number : Option String := none
  title : Option String := none
  text : Option String := none
  children : List Nat := []
  parent : Option Nat := none
deriving DecidableEq

/-- The state of the older `ConstitutionProcessor` (lines 96-100):
`self.root` is a mutable reference (`rootIdx`), `processed_elements` the
duplicate-id set. -/
structure SState where
  arena : List SElement
  current : List (StructureType × Nat)
  rootIdx : Nat
  processed : List String
deriving DecidableEq

/-- `__init__` (lines 96-100). -/
def sInit : SState :=
  { arena := [{ type := StructureType.PREAMBULO }], current := [], rootIdx := 0,
    processed := [] }

/-- `ConstitutionalElement.add_child` with `_validate_child` (lines 49-70):
when the child's hierarchy index is not greater than the parent's, log and
do nothing; otherwise set the child's parent reference and append the child
to the parent's list. -/
def sAddChild (st : SState) (pIdx cIdx : Nat) : SState :=
  match st.arena.get? pIdx, st.arena.get? cIdx with
  | some p, some c =>
    if sIndex p.type < sIndex c.type then
      let arena1 := updateAt st.arena cIdx (fun e => { e with parent := some pIdx })
      let arena2 := updateAt arena1 pIdx (fun e => { e with children := e.children ++ [cIdx] })
      { st with arena := arena2 }
    else st
  | _, _ => st

/-- `_find_parent_type` (lines 183-195): the hierarchy entry one step up;
`None` at the top (and for the unreachable `ADCT`, whose `hierarchy.index`
would raise `ValueError`, caught and turned into `None`). -/
def findParentType : StructureType → Option StructureType
  | StructureType.PREAMBULO => none
  | StructureType.TITULO => some StructureType.PREAMBULO
  | StructureType.CAPITULO => some StructureType.TITULO
  | StructureType.SECAO => some StructureType.CAPITULO
  | StructureType.SUBSECAO => some StructureType.SECAO
  | StructureType.ARTIGO => some StructureType.SUBSECAO
  | StructureType.PARAGRAFO => some StructureType.ARTIGO
  | StructureType.INCISO => some StructureType.PARAGRAFO
  | StructureType.ALINEA => some StructureType.INCISO
  | StructureType.ADCT => none

/-- `_update_current_structure` (lines 169-181): delete every strictly
lower (higher-index) slot, then set the element's own slot in place. -/
def sUpdateCurrent (st : SState) (idx : Nat) : SState :=
  match st.arena.get? idx with
  | none => st
  | some e =>
    let kept := st.current.filter (fun p => sIndex p.1 ≤ sIndex e.type)
    { st with current := dictInsert kept e.type idx }

/-- `_handle_element_placement` (lines 131-147) with `_get_or_create_parent`
(lines 149-167) inlined: a missing parent slot is filled with a freshly
created placeholder element, registered in `current_structure` and
recursively placed itself, before the element is attached to it.  The
recursion climbs one hierarchy level per step, so fuel 10 never runs out. -/
def handlePlacement : Nat → SState → Nat → SState
  | 0, st, _ => st
  | fuel + 1, st, idx =>
    match st.arena.get? idx with
    | none => st
    | some e =>
      if e.type = StructureType.PREAMBULO then { st with rootIdx := idx }
      else
        match findParentType e.type with
        | none => st
        | some pt =>
          match dictFind st.current pt with
          | some pIdx => sUpdateCurrent (sAddChild st pIdx idx) idx
          | none =>
            let pIdx := st.arena.length
            let st1 : SState :=
              { st with arena := st.arena ++ [{ type := pt }],
                        current := dictInsert st.current pt pIdx }
            let st2 := handlePlacement fuel st1 pIdx
            sUpdateCurrent (sAddChild st2 pIdx idx) idx

/-- `StructureType[type_str.upper()]` over the older enum (line 106): no
`ADCT` member, so `"ADCT"` raises `KeyError` (here `none`), which
`process_element` catches, logs and returns from. -/
def sParse (ts : String) : Option StructureType :=
  let u := asciiUpper ts
  if u = "PREAMBULO" then some StructureType.PREAMBULO
  else if u = "TITULO" then some StructureType.TITULO
  else if u = "CAPITULO" then some StructureType.CAPITULO
  else if u = "SECAO" then some StructureType.SECAO
  else if u = "SUBSECAO" then some StructureType.SUBSECAO
  else if u = "ARTIGO" then some StructureType.ARTIGO
  else if u = "PARAGRAFO" then some StructureType.PARAGRAFO
  else if u = "INCISO" then some StructureType.INCISO
  else if u = "ALINEA" then some StructureType.ALINEA
  else none

/-- `f"{element_type.value}_{number or 'none'}"` (line 112). -/
def elementId (t : StructureType) (number : Option String) : String :=
  sValue t ++ "_" ++
    (match number with
     | some n => if n = "" then "none" else n
     | none => "none")

/-- `process_element` of the older variant (lines 102-129): unknown label is
logged and skipped; a `(kind, number)` id seen before anywhere is logged and
skipped (global, not per-parent, duplicate detection); otherwise the element
is created and placed, and its id recorded. -/
def sProcessElement (st : SState) (ts : String) (number title : Option String)
    (text : String) : SState :=
  match sParse ts with
  | none => st
  | some t =>
    let eid := elementId t number
    if eid ∈ st.processed then st
    else
      let idx := st.arena.length
      let st1 : SState :=
        { st with arena :=
            st.arena ++ [{ type := t, number := number, title := title, text := some text }] }
      let st2 := handlePlacement 10 st1 idx
      { st2 with processed := st2.processed ++ [eid] }

/-- Feed a tuple stream to the older builder in order. -/
def sRunFrom (st : SState) : List RawTuple → SState
  | [] => st
  | (ts, n, t, txt) :: rest => sRunFrom (sProcessElement st ts n t txt) rest

/-- A whole run of the older builder from its initial state. -/
def runScraper (l : List RawTuple) : SState := sRunFrom sInit l

end Scraper

/-! ## Cross-variant claims -/

/-- `Title I` then `Article 5`, with no `Chapter`, `Section` or `Subsection`
ever opened. -/
def placeholderScenario : List ConstitutionStructure.RawTuple :=
  [("TITULO", some "I", none, "t"), ("ARTIGO", some "5", none, "a")]

/-- C4 counterexample, on the older builder: after `Title I` only the
(placeholder) preamble and the title slots are open, yet the arriving
`Article 5` is not attached to the `Title` (whose only child is a fabricated
`Chapter` placeholder, index 6): `_get_or_create_parent` fabricates the
whole `Chapter -> Section -> Subsection` placeholder chain and hangs the
article under the placeholder `Subsection` (index 4). -/
theorem scraper_fabricates_placeholders_cex :
    (Scraper.sRunFrom Scraper.sInit [("TITULO", some "I", none, "t")]).current =
      [(ConstitutionStructure.StructureType.PREAMBULO, 2),
       (ConstitutionStructure.StructureType.TITULO, 1)] ∧
    (Scraper.runScraper placeholderScenario).arena.get? 3 =
      some { type := ConstitutionStructure.StructureType.ARTIGO,
             number := some "5", text := some "a", parent := some 4 } ∧
    (Scraper.runScraper placeholderScenario).arena.get? 4 =
      some { type := ConstitutionStructure.StructureType.SUBSECAO,
             children := [3], parent := some 5 } ∧
    (Scraper.runScraper placeholderScenario).arena.get? 1 =
      some { type := ConstitutionStructure.StructureType.TITULO,
             number := some "I", text := some "t", children := [6],
             parent := some 2 } ∧
    (Scraper.runScraper placeholderScenario).arena.get? 6 =
      some { type := ConstitutionStructure.StructureType.CAPITULO,
             children := [5], parent := some 1 } := by
  refine ⟨by decide, by decide, by decide, by decide, by decide⟩

theorem find?_map_dictInsert {β : Type} (k : α) [DecidableEq α] (v : β) :
    ∀ l : List (α × β),
      (l.map (fun p => if p.1 = k then (k, v) else p)).find? (fun p => p.1 = k) =
        if l.any (fun p => p.1 = k) then some (k, v) else none := by
  intro l
  induction l with
  | nil => simp
  | cons p rest ih =>
    by_cases hp : p.1 = k
    · simp [hp, List.find?]
    · have hc : ((p :: rest).any (fun q => q.1 = k)) =
          (rest.any (fun q => q.1 = k)) := by simp [hp]
      rw [List.map_cons, if_neg hp, List.find?_cons_of_neg, hc, ih]
      simp [hp]

theorem dictFind_dictInsert {β : Type} [DecidableEq α] (l : List (α × β))
    (k : α) (v : β) : dictFind (dictInsert l k v) k = some v := by
  unfold dictInsert dictFind
  by_cases h : l.any (fun p => p.1 = k)
  · rw [if_pos h, find?_map_dictInsert, if_pos h]
    rfl
  · rw [if_neg h, List.find?_append]
    have hnone : l.find? (fun p => decide (p.1 = k)) = none := by
      rw [List.find?_eq_none]
      intro p hp
      simp only [decide_eq_true_eq]
      intro hk
      exact h (List.any_eq_true.mpr ⟨p, hp, by simp [hk]⟩)
    rw [hnone]
    simp [List.find?]

/-- Same `(Article, "5")` under two different `Title` parents. -/
def globalDupScenario : List ConstitutionStructure.RawTuple :=
  [("TITULO", some "I", none, "t1"), ("ARTIGO", some "5", none, "first"),
   ("TITULO", some "II", none, "t2"), ("ARTIGO", some "5", none, "second")]

/-- C2 (amended): the duplicate policies of the two builder variants.
In the newer builder `d[k] = v` (here `dictFind`/`dictInsert`) silently
overwrites: exactly one child keyed `"5"` remains and it is the LAST
occurrence, with no warning path.  In the older builder the second
occurrence is discarded (first occurrence wins, with a logged warning), but
duplicate detection is by global `(kind, number)` id, not per parent: the
same article number under a different `Title` is also dropped. -/
theorem duplicate_policy_by_variant :
    (∀ (l : List (String × Nat)) (k : String) (v : Nat),
      dictFind (dictInsert l k v) k = some v) ∧
    (ConstitutionStructure.runScraping ConstitutionStructure.duplicateScenario).arena.get?
        ConstitutionStructure.rootIdx =
      some { type := ConstitutionStructure.StructureType.PREAMBULO,
             children := [("artigos", ConstitutionStructure.ChildVal.numbered [("5", 3)])] } ∧
    (ConstitutionStructure.runScraping ConstitutionStructure.duplicateScenario).arena.get? 3 =
      some { type := ConstitutionStructure.StructureType.ARTIGO, number := some "5",
             content := [⟨"artigo", some "5", "second"⟩] } ∧
    (Scraper.runScraper ConstitutionStructure.duplicateScenario).arena.get? 1 =
      some { type := ConstitutionStructure.StructureType.ARTIGO,
             number := some "5", text := some "first", parent := some 2 } ∧
    (Scraper.runScraper ConstitutionStructure.duplicateScenario).arena.length = 7 ∧
    (Scraper.runScraper ConstitutionStructure.duplicateScenario).processed = ["artigo_5"] ∧
    (Scraper.runScraper globalDupScenario).processed =
      ["titulo_I", "artigo_5", "titulo_II"] ∧
    (Scraper.runScraper globalDupScenario).arena.length = 8 := by
  refine ⟨fun l k v => dictFind_dictInsert l k v, by decide, by decide, by decide,
    by decide, by decide, by decide, by decide⟩

/-- C7 (amended): a tuple with an unrecognized kind label is logged and
discarded whole, in both variants: non-fatal (the newer variant re-raises
the `KeyError` but the scraping loop catches it and continues with the next
tuple; the older variant returns early), the builder state is left exactly
unchanged, and in particular the tuple's text is appended to no element —
it is not treated as content-continuation. -/
theorem unknown_kind_nonfatal_noop (s : ConstitutionStructure.ProcState)
    (st : Scraper.SState) (ts : String) (number title : Option String)
    (text : String) :
    ConstitutionStructure.parseStructureType ts = none →
    Scraper.sParse ts = none →
      ConstitutionStructure.processElement s ts number title text = s ∧
      Scraper.sProcessElement st ts number title text = st := by
  intro h1 h2
  constructor
  · unfold ConstitutionStructure.processElement
    rw [h1]
  · unfold Scraper.sProcessElement
    rw [h2]

/-- Witness for the amended C7 at the label `FOO`, with an article open in
both builders. -/
theorem unknown_kind_nonfatal_noop_witness :
    ConstitutionStructure.parseStructureType "FOO" = none ∧
    Scraper.sParse "FOO" = none ∧
    (ConstitutionStructure.processElement
        (ConstitutionStructure.runScraping [("ARTIGO", some "1", none, "a1")])
        "FOO" none none "lost" =
      ConstitutionStructure.runScraping [("ARTIGO", some "1", none, "a1")] ∧
    Scraper.sProcessElement
        (Scraper.runScraper [("ARTIGO", some "1", none, "a1")])
        "FOO" none none "lost" =
      Scraper.runScraper [("ARTIGO", some "1", none, "a1")]) :=
  ⟨by decide, by decide,
    unknown_kind_nonfatal_noop
      (ConstitutionStructure.runScraping [("ARTIGO", some "1", none, "a1")])
      (Scraper.runScraper [("ARTIGO", some "1", none, "a1")])
      "FOO" none none "lost" (by decide) (by decide)⟩

namespace ConstitutionStructure

/-- The open-slot map holds its entries in strictly increasing
hierarchy-level order. -/
def CurSorted (cur : List (StructureType × Nat)) : Prop :=
  List.Pairwise (fun a b => hierarchyLevel a.1 < hierarchyLevel b.1) cur

theorem filter_lt_no_key (cur : List (StructureType × Nat)) (t : StructureType) :
    ((cur.filter (fun p => hierarchyLevel p.1 < hierarchyLevel t)).any
      (fun p => p.1 = t)) = false := by
  rw [List.any_eq_false]
  intro p hp
  simp only [decide_eq_true_eq]
  intro hk
  have := List.of_mem_filter hp
  simp only [decide_eq_true_eq] at this
  rw [hk] at this
  exact absurd this (lt_irrefl _)

theorem updateStructure_current (s : ProcState) (t : StructureType) (idx : Nat) :
    (updateStructure s t idx).current =
      (s.current.filter (fun p => hierarchyLevel p.1 < hierarchyLevel t)) ++
        [(t, idx)] := by
  unfold updateStructure dictInsert
  simp only
  rw [if_neg (by rw [filter_lt_no_key]; exact Bool.false_ne_true)]

theorem placeElement_current (s : ProcState) (t : StructureType)
    (number : Option String) (idx : Nat) :
    (placeElement s t number idx).current = s.current := by
  unfold placeElement
  cases typeBaseKey t <;> rfl

theorem curSorted_after_insert (cur : List (StructureType × Nat))
    (t : StructureType) (idx : Nat) (h : CurSorted cur) :
    CurSorted ((cur.filter (fun p => hierarchyLevel p.1 < hierarchyLevel t)) ++
      [(t, idx)]) := by
  rw [CurSorted, List.pairwise_append]
  refine ⟨h.filter _, List.pairwise_singleton _ _, ?_⟩
  intro a ha b hb
  have hlt := List.of_mem_filter ha
  simp only [decide_eq_true_eq] at hlt
  rcases List.mem_singleton.mp hb with rfl
  exact hlt

theorem curSorted_processElement (s : ProcState) (ts : String)
    (number title : Option String) (text : String) (h : CurSorted s.current) :
    CurSorted (processElement s ts number title text).current := by
  unfold processElement
  cases hp : parseStructureType ts with
  | none => exact h
  | some t =>
    cases t with
    | PREAMBULO => exact h
    | ADCT => exact h
    | TITULO =>
      rw [placeElement_current, updateStructure_current]
      exact curSorted_after_insert _ _ _ h
    | CAPITULO =>
      rw [placeElement_current, updateStructure_current]
      exact curSorted_after_insert _ _ _ h
    | SECAO =>
      rw [placeElement_current, updateStructure_current]
      exact curSorted_after_insert _ _ _ h
    | SUBSECAO =>
      rw [placeElement_current, updateStructure_current]
      exact curSorted_after_insert _ _ _ h
    | ARTIGO =>
      rw [placeElement_current, updateStructure_current]
      exact curSorted_after_insert _ _ _ h
    | PARAGRAFO =>
      rw [placeElement_current, updateStructure_current]
      exact curSorted_after_insert _ _ _ h
    | INCISO =>
      rw [placeElement_current, updateStructure_current]
      exact curSorted_after_insert _ _ _ h
    | ALINEA =>
      rw [placeElement_current, updateStructure_current]
      exact curSorted_after_insert _ _ _ h

theorem curSorted_runFrom (inputs : List RawTuple) :
    ∀ s : ProcState, CurSorted s.current → CurSorted (runFrom s inputs).current := by
  induction inputs with
  | nil => intro s h; exact h
  | cons tup rest ih =>
    intro s h
    obtain ⟨ts, n, t, txt⟩ := tup
    exact ih _ (curSorted_processElement s ts n t txt h)

theorem scanFoldSpec (lvl : Nat) (cur : List (StructureType × Nat)) :
    ∀ acc : Nat,
      (cur.filter (fun p => hierarchyLevel p.1 < lvl) = [] ∧
        cur.foldl (fun a p => if hierarchyLevel p.1 < lvl then p.2 else a) acc = acc) ∨
      (∃ pre p, cur.filter (fun p => hierarchyLevel p.1 < lvl) = pre ++ [p] ∧
        cur.foldl (fun a p => if hierarchyLevel p.1 < lvl then p.2 else a) acc = p.2) := by
  induction cur with
  | nil => intro acc; exact Or.inl ⟨rfl, rfl⟩
  | cons q rest ih =>
    intro acc
    by_cases hq : hierarchyLevel q.1 < lvl
    · rcases ih q.2 with ⟨hf, hacc⟩ | ⟨pre, p, hsplit, hfold⟩
      · refine Or.inr ⟨[], q, ?_, ?_⟩
        · rw [List.filter_cons_of_pos (by simpa using hq), hf]; rfl
        · simp only [List.foldl_cons, if_pos hq]; exact hacc
      · refine Or.inr ⟨q :: pre, p, ?_, ?_⟩
        · rw [List.filter_cons_of_pos (by simpa using hq), hsplit]; rfl
        · simp only [List.foldl_cons, if_pos hq]; exact hfold
    · rcases ih acc with ⟨hf, hacc⟩ | ⟨pre, p, hsplit, hfold⟩
      · refine Or.inl ⟨?_, ?_⟩
        · rw [List.filter_cons_of_neg (by simpa using hq)]; exact hf
        · simp only [List.foldl_cons, if_neg hq]; exact hacc
      · refine Or.inr ⟨pre, p, ?_, ?_⟩
        · rw [List.filter_cons_of_neg (by simpa using hq)]; exact hsplit
        · simp only [List.foldl_cons, if_neg hq]; exact hfold

/-- C10: after any prefix of any input stream, the open-slot map holds its
entries in strictly increasing hierarchy-level order, and for every level
`lvl` the `_place_element` scan (keep the last slot of strictly lower level)
returns the root when no slot is below `lvl`, and otherwise the slot of
maximal level strictly below `lvl`. -/
theorem current_structure_sorted_scan_max (inputs : List RawTuple) (lvl : Nat) :
    CurSorted (runScraping inputs).current ∧
    (((runScraping inputs).current.filter (fun p => hierarchyLevel p.1 < lvl) = [] ∧
        scanParent (runScraping inputs).current lvl = rootIdx) ∨
      (∃ p ∈ (runScraping inputs).current.filter
          (fun p => hierarchyLevel p.1 < lvl),
        scanParent (runScraping inputs).current lvl = p.2 ∧
        ∀ q ∈ (runScraping inputs).current.filter
            (fun p => hierarchyLevel p.1 < lvl),
          hierarchyLevel q.1 ≤ hierarchyLevel p.1)) := by
  have hsorted : CurSorted (runScraping inputs).current :=
    curSorted_runFrom inputs initState List.Pairwise.nil
  refine ⟨hsorted, ?_⟩
  rcases scanFoldSpec lvl (runScraping inputs).current rootIdx with
    ⟨hf, hacc⟩ | ⟨pre, p, hsplit, hfold⟩
  · exact Or.inl ⟨hf, hacc⟩
  · refine Or.inr ⟨p, ?_, hfold, ?_⟩
    · rw [hsplit]; exact List.mem_append_right _ (List.mem_singleton_self p)
    · intro q hq
      have hsf : CurSorted ((runScraping inputs).current.filter
          (fun p => hierarchyLevel p.1 < lvl)) := hsorted.filter _
      rw [hsplit] at hsf hq
      rcases List.mem_append.mp hq with hq1 | hq2
      · have := (List.pairwise_append.mp hsf).2.2 q hq1 p (List.mem_singleton_self p)
        exact le_of_lt this
      · rcases List.mem_singleton.mp hq2 with rfl
        exact le_rfl

end ConstitutionStructure

/-! ## Arena helper lemmas -/

theorem get?_updateAt_cases {γ : Type} (arena : List γ) (i : Nat) (f : γ → γ)
    (j : Nat) (x : γ) (h : (updateAt arena i f).get? j = some x) :
    ∃ y, arena.get? j = some y ∧ (x = y ∨ (j = i ∧ x = f y)) := by
  unfold updateAt at h
  cases hi : arena.get? i with
  | none => rw [hi] at h; exact ⟨x, h, Or.inl rfl⟩
  | some e =>
    rw [hi] at h
    by_cases hji : j = i
    · subst hji
      have hlt : j < arena.length := by
        by_contra hno
        rw [List.get?_eq_none.mpr (Nat.le_of_not_lt hno)] at hi
        cases hi
      rw [List.get?_eq_getElem?, List.getElem?_set_self hlt] at h
      exact ⟨e, hi, Or.inr ⟨rfl, (Option.some.inj h).symm⟩⟩
    · rw [List.get?_eq_getElem?, List.getElem?_set_ne (Ne.symm hji),
        ← List.get?_eq_getElem?] at h
      exact ⟨x, h, Or.inl rfl⟩

theorem get?_updateAt_some {γ : Type} (arena : List γ) (i : Nat) (f : γ → γ)
    (j : Nat) (y : γ) (h : arena.get? j = some y) :
    (updateAt arena i f).get? j = some y ∨
      (j = i ∧ (updateAt arena i f).get? j = some (f y)) := by
  unfold updateAt
  cases hi : arena.get? i with
  | none => exact Or.inl h
  | some e =>
    by_cases hji : j = i
    · subst hji
      have hy : y = e := Option.some.inj (h.symm.trans hi)
      have hlt : j < arena.length := by
        by_contra hno
        rw [List.get?_eq_none.mpr (Nat.le_of_not_lt hno)] at hi
        cases hi
      refine Or.inr ⟨rfl, ?_⟩
      rw [List.get?_eq_getElem?, List.getElem?_set_self hlt, hy]
    · refine Or.inl ?_
      rw [List.get?_eq_getElem?, List.getElem?_set_ne (Ne.symm hji),
        ← List.get?_eq_getElem?]
      exact h

theorem length_updateAt {γ : Type} (arena : List γ) (i : Nat) (f : γ → γ) :
    (updateAt arena i f).length = arena.length := by
  unfold updateAt
  cases arena.get? i with
  | none => rfl
  | some e => exact List.length_set arena i _

theorem get?_lt_length {γ : Type} {arena : List γ} {j : Nat} {y : γ}
    (h : arena.get? j = some y) : j < arena.length := by
  by_contra hno
  rw [List.get?_eq_none.mpr (Nat.le_of_not_lt hno)] at h
  cases h

theorem get?_append_cases {γ : Type} (l : List γ) (x : γ) (j : Nat) (y : γ)
    (h : (l ++ [x]).get? j = some y) :
    l.get? j = some y ∨ (j = l.length ∧ y = x) := by
  by_cases hj : j < l.length
  · rw [List.get?_append hj] at h
    exact Or.inl h
  · by_cases hj2 : j = l.length
    · subst hj2
      rw [List.get?_concat_length] at h
      exact Or.inr ⟨rfl, (Option.some.inj h).symm⟩
    · exfalso
      have : (l ++ [x]).length ≤ j := by
        simp only [List.length_append, List.length_singleton]
        omega
      rw [List.get?_eq_none.mpr this] at h
      cases h

theorem get?_append_left {γ : Type} (l : List γ) (x : γ) (j : Nat) (y : γ)
    (h : l.get? j = some y) : (l ++ [x]).get? j = some y := by
  rw [List.get?_append (get?_lt_length h)]
  exact h

theorem mem_dictInsert {α β : Type} [DecidableEq α] (l : List (α × β)) (k : α)
    (v : β) (x : α × β) (h : x ∈ dictInsert l k v) : x ∈ l ∨ x = (k, v) := by
  unfold dictInsert at h
  by_cases ha : l.any (fun p => p.1 = k)
  · rw [if_pos ha] at h
    obtain ⟨p, hp, hfx⟩ := List.mem_map.mp h
    by_cases hpk : p.1 = k
    · right; rw [← hfx]; simp [hpk]
    · left; rw [← hfx]; simp only [if_neg hpk]; exact hp
  · rw [if_neg ha] at h
    rcases List.mem_append.mp h with h1 | h2
    · exact Or.inl h1
    · exact Or.inr (List.mem_singleton.mp h2)

theorem dictFind_mem {α β : Type} [DecidableEq α] (l : List (α × β)) (k : α)
    (v : β) (h : dictFind l k = some v) : (k, v) ∈ l := by
  unfold dictFind at h
  cases hf : l.find? (fun p => p.1 = k) with
  | none => rw [hf] at h; cases h
  | some p =>
    rw [hf] at h
    have hmem := List.mem_of_find?_eq_some hf
    have hpred := List.find?_some hf
    simp only [decide_eq_true_eq] at hpred
    have hv : p.2 = v := Option.some.inj h
    have hpkv : p = (k, v) := by
      rw [Prod.ext_iff]
      exact ⟨hpred, hv⟩
    rw [← hpkv]
    exact hmem

namespace ConstitutionStructure

/-- The arena indices a `children` value refers to. -/
def childIdxsOfVal : ChildVal → List Nat
  | ChildVal.single i => [i]
  | ChildVal.numbered m => m.map (fun q => q.2)

/-- All arena indices an element's `children` dict refers to: the
parent-to-child edges of the tree. -/
def Element.childIndices (e : Element) : List Nat :=
  (e.children.map (fun p => childIdxsOfVal p.2)).join

theorem mem_childIndices {e : Element} {j : Nat} :
    j ∈ e.childIndices ↔ ∃ pair ∈ e.children, j ∈ childIdxsOfVal pair.2 := by
  unfold Element.childIndices
  rw [List.mem_join]
  constructor
  · rintro ⟨l, hl, hj⟩
    obtain ⟨pair, hp, rfl⟩ := List.mem_map.mp hl
    exact ⟨pair, hp, hj⟩
  · rintro ⟨pair, hp, hj⟩
    exact ⟨childIdxsOfVal pair.2, List.mem_map.mpr ⟨pair, hp, rfl⟩, hj⟩

theorem type_addChild (e : Element) (base : String) (num : Option String)
    (i : Nat) : (Element.addChild e base num i).type = e.type := by
  unfold Element.addChild
  cases num with
  | none => rfl
  | some n =>
    cases dictFind e.children base with
    | none => rfl
    | some v =>
      cases v with
      | single k => rfl
      | numbered m => rfl

theorem childIndices_addChild (e : Element) (base : String) (num : Option String)
    (i j : Nat) (h : j ∈ (Element.addChild e base num i).childIndices) :
    j ∈ e.childIndices ∨ j = i := by
  unfold Element.addChild at h
  cases num with
  | none =>
    obtain ⟨pair, hp, hj⟩ := mem_childIndices.mp h
    rcases mem_dictInsert _ _ _ _ hp with h1 | h2
    · exact Or.inl (mem_childIndices.mpr ⟨pair, h1, hj⟩)
    · subst h2
      exact Or.inr (List.mem_singleton.mp hj)
  | some n =>
    cases hdf : dictFind e.children base with
    | none =>
      rw [hdf] at h
      obtain ⟨pair, hp, hj⟩ := mem_childIndices.mp h
      rcases mem_dictInsert _ _ _ _ hp with h1 | h2
      · exact Or.inl (mem_childIndices.mpr ⟨pair, h1, hj⟩)
      · subst h2
        simp only [childIdxsOfVal, List.map_cons, List.map_nil] at hj
        exact Or.inr (List.mem_singleton.mp hj)
    | some v =>
      rw [hdf] at h
      cases v with
      | single k => exact Or.inl h
      | numbered m =>
        obtain ⟨pair, hp, hj⟩ := mem_childIndices.mp h
        rcases mem_dictInsert _ _ _ _ hp with h1 | h2
        · exact Or.inl (mem_childIndices.mpr ⟨pair, h1, hj⟩)
        · subst h2
          simp only [childIdxsOfVal] at hj
          obtain ⟨q, hq, hq2⟩ := List.mem_map.mp hj
          rcases mem_dictInsert _ _ _ _ hq with hq3 | hq4
          · refine Or.inl (mem_childIndices.mpr
              ⟨(base, ChildVal.numbered m), dictFind_mem _ _ _ hdf, ?_⟩)
            simp only [childIdxsOfVal]
            exact List.mem_map.mpr ⟨q, hq3, hq2⟩
          · subst hq4
            exact Or.inr hq2.symm

/-- Rank invariant on the arena: every stored parent-to-child edge goes to a
strictly greater hierarchy level. -/
def RankOk (arena : List Element) : Prop :=
  ∀ i j e ce, arena.get? i = some e → j ∈ e.childIndices →
    arena.get? j = some ce → hierarchyLevel e.type < hierarchyLevel ce.type

/-- Every stored child reference is inside the arena. -/
def InBounds (arena : List Element) : Prop :=
  ∀ i e, arena.get? i = some e → ∀ j ∈ e.childIndices, j < arena.length

/-- Every open slot points to an element of the slot's own type. -/
def CurTyped (s : ProcState) : Prop :=
  ∀ p ∈ s.current, ∃ e, s.arena.get? p.2 = some e ∧ e.type = p.1

/-- The root is (still) the preamble element. -/
def RootPre (arena : List Element) : Prop :=
  ∃ e, arena.get? rootIdx = some e ∧ e.type = StructureType.PREAMBULO

/-- The builder invariant. -/
def Inv (s : ProcState) : Prop :=
  RankOk s.arena ∧ InBounds s.arena ∧ CurTyped s ∧ RootPre s.arena

theorem initState_childless :
    ∀ (i : Nat) (e : Element), initState.arena.get? i = some e →
      e.childIndices = [] := by
  intro i e h
  match i with
  | 0 =>
    rw [show initState.arena.get? 0 =
      some { type := StructureType.PREAMBULO } from rfl] at h
    rw [← Option.some.inj h]
    rfl
  | 1 =>
    rw [show initState.arena.get? 1 =
      some { type := StructureType.ADCT } from rfl] at h
    rw [← Option.some.inj h]
    rfl
  | (n + 2) =>
    rw [show initState.arena.get? (n + 2) = none from rfl] at h
    cases h

theorem inv_initState : Inv initState := by
  refine ⟨?_, ?_, ?_, ?_⟩
  · intro i j e ce h1 h2 h3
    rw [initState_childless i e h1] at h2
    cases h2
  · intro i e h1 j hj
    rw [initState_childless i e h1] at hj
    cases hj
  · intro p hp
    cases hp
  · exact ⟨{ type := StructureType.PREAMBULO }, rfl, rfl⟩

theorem inv_updateAt_keep (s : ProcState) (i : Nat) (f : Element → Element)
    (hty : ∀ e, (f e).type = e.type)
    (hch : ∀ e, (f e).childIndices = e.childIndices)
    (h : Inv s) : Inv { s with arena := updateAt s.arena i f } := by
  obtain ⟨hr, hb, hc, hp⟩ := h
  refine ⟨?_, ?_, ?_, ?_⟩
  · intro i' j e ce h1 h2 h3
    obtain ⟨e0, he0, hcase⟩ := get?_updateAt_cases _ _ _ _ _ h1
    obtain ⟨ce0, hce0, hcase2⟩ := get?_updateAt_cases _ _ _ _ _ h3
    have het : e.type = e0.type := by
      rcases hcase with rfl | ⟨-, rfl⟩
      · rfl
      · exact hty e0
    have hech : e.childIndices = e0.childIndices := by
      rcases hcase with rfl | ⟨-, rfl⟩
      · rfl
      · exact hch e0
    have hcet : ce.type = ce0.type := by
      rcases hcase2 with rfl | ⟨-, rfl⟩
      · rfl
      · exact hty ce0
    rw [het, hcet]
    exact hr i' j e0 ce0 he0 (hech ▸ h2) hce0
  · intro i' e h1 j hj
    obtain ⟨e0, he0, hcase⟩ := get?_updateAt_cases _ _ _ _ _ h1
    have hech : e.childIndices = e0.childIndices := by
      rcases hcase with rfl | ⟨-, rfl⟩
      · rfl
      · exact hch e0
    have := hb i' e0 he0 j (hech ▸ hj)
    simpa [length_updateAt] using this
  · intro p hp2
    obtain ⟨e, he, het⟩ := hc p hp2
    rcases get?_updateAt_some s.arena i f p.2 e he with h1 | ⟨-, h1⟩
    · exact ⟨e, h1, het⟩
    · exact ⟨f e, h1, by rw [hty]; exact het⟩
  · obtain ⟨e, he, het⟩ := hp
    rcases get?_updateAt_some s.arena i f rootIdx e he with h1 | ⟨-, h1⟩
    · exact ⟨e, h1, het⟩
    · exact ⟨f e, h1, by rw [hty]; exact het⟩

theorem inv_append_childless (s : ProcState) (el : Element)
    (hch : el.childIndices = []) (h : Inv s) :
    Inv { s with arena := s.arena ++ [el] } := by
  obtain ⟨hr, hb, hc, hp⟩ := h
  refine ⟨?_, ?_, ?_, ?_⟩
  · intro i j e ce h1 h2 h3
    rcases get?_append_cases _ _ _ _ h1 with h1o | ⟨hi, hee⟩
    · have hj : j < s.arena.length := hb i e h1o j h2
      rcases get?_append_cases _ _ _ _ h3 with h3o | ⟨hj2, -⟩
      · exact hr i j e ce h1o h2 h3o
      · omega
    · rw [hee, hch] at h2
      cases h2
  · intro i e h1 j hj
    simp only [List.length_append, List.length_singleton]
    rcases get?_append_cases _ _ _ _ h1 with h1o | ⟨hi, hee⟩
    · have := hb i e h1o j hj
      omega
    · rw [hee, hch] at hj
      cases hj
  · intro p hp2
    obtain ⟨e, he, het⟩ := hc p hp2
    exact ⟨e, get?_append_left _ _ _ _ he, het⟩
  · obtain ⟨e, he, het⟩ := hp
    exact ⟨e, get?_append_left _ _ _ _ he, het⟩

theorem scanParent_cases (cur : List (StructureType × Nat)) (lvl : Nat) :
    scanParent cur lvl = rootIdx ∨
      ∃ p ∈ cur, hierarchyLevel p.1 < lvl ∧ scanParent cur lvl = p.2 := by
  rcases scanFoldSpec lvl cur rootIdx with ⟨-, h⟩ | ⟨pre, p, hsplit, hfold⟩
  · exact Or.inl h
  · right
    have hpmem : p ∈ cur.filter (fun p => hierarchyLevel p.1 < lvl) := by
      rw [hsplit]
      exact List.mem_append_right _ (List.mem_singleton_self p)
    have hmf := List.mem_filter.mp hpmem
    exact ⟨p, hmf.1, by simpa using hmf.2, hfold⟩

end ConstitutionStructure

namespace ConstitutionStructure

theorem typeBaseKey_isSome_of_lvl (t : StructureType)
    (hlvl : 1 ≤ hierarchyLevel t) : typeBaseKey t ≠ none := by
  cases t <;> simp [typeBaseKey, hierarchyLevel] at hlvl ⊢

/-- The element `process_element` creates for a classified non-root tuple
(lines 238-250). -/
def mkElement (t : StructureType) (num title : Option String) (txt : String) :
    Element :=
  { type := t, number := num, title := title,
    content := [⟨asciiLower t.value, num, txt⟩] }

theorem inv_place_update (s : ProcState) (t : StructureType)
    (num title : Option String) (txt : String)
    (hlvl : 1 ≤ hierarchyLevel t) (h : Inv s) :
    Inv (placeElement (updateStructure
      { s with arena := s.arena ++ [mkElement t num title txt] } t
        s.arena.length) t num s.arena.length) := by
  have inv1 : Inv { s with arena := s.arena ++ [mkElement t num title txt] } :=
    inv_append_childless s _ rfl h
  set el : Element := mkElement t num title txt with hel
  set s1 : ProcState := { s with arena := s.arena ++ [el] } with hs1
  set idx := s.arena.length with hidx
  have hgetel : s1.arena.get? idx = some el := by
    rw [hs1, hidx]
    exact List.get?_concat_length s.arena el
  have inv2 : Inv (updateStructure s1 t idx) := by
    obtain ⟨hr1, hb1, hc1, hp1⟩ := inv1
    refine ⟨hr1, hb1, ?_, hp1⟩
    intro p hp2
    rw [updateStructure_current] at hp2
    rcases List.mem_append.mp hp2 with h1 | h2
    · exact hc1 p (List.mem_of_mem_filter h1)
    · rcases List.mem_singleton.mp h2 with rfl
      exact ⟨el, hgetel, rfl⟩
  set s2 := updateStructure s1 t idx with hs2
  cases hbk : typeBaseKey t with
  | none => exact absurd hbk (typeBaseKey_isSome_of_lvl t hlvl)
  | some base =>
    unfold placeElement
    rw [hbk]
    obtain ⟨hr2, hb2, hc2, hp2⟩ := inv2
    have harena2 : s2.arena = s.arena ++ [el] := rfl
    have hlen2 : s2.arena.length = s.arena.length + 1 := by
      rw [harena2]
      simp
    have hparent : ∀ pe,
        s2.arena.get? (scanParent s2.current (hierarchyLevel t)) = some pe →
        hierarchyLevel pe.type < hierarchyLevel t := by
      intro pe hpe
      rcases scanParent_cases s2.current (hierarchyLevel t) with hroot | ⟨p, hpmem, hplvl, hscan⟩
      · rw [hroot] at hpe
        obtain ⟨r, hr0, hrt⟩ := hp2
        have : pe = r := Option.some.inj (hpe.symm.trans hr0)
        rw [this, hrt]
        show 0 < hierarchyLevel t
        omega
      · rw [hscan] at hpe
        obtain ⟨ep, hep, hept⟩ := hc2 p hpmem
        have : pe = ep := Option.some.inj (hpe.symm.trans hep)
        rw [this, hept]
        exact hplvl
    set pIdx := scanParent s2.current (hierarchyLevel t) with hpidx
    refine ⟨?_, ?_, ?_, ?_⟩
    · intro i j e ce h1 h2 h3
      obtain ⟨e0, he0, hcase⟩ := get?_updateAt_cases _ _ _ _ _ h1
      obtain ⟨ce0, hce0, hcase2⟩ := get?_updateAt_cases _ _ _ _ _ h3
      have hcet : ce.type = ce0.type := by
        rcases hcase2 with rfl | ⟨-, rfl⟩
        · rfl
        · exact type_addChild ce0 base _ idx
      rcases hcase with rfl | ⟨hip, rfl⟩
      · rw [hcet]
        exact hr2 i j e ce0 he0 h2 hce0
      · rcases childIndices_addChild e0 base _ idx j h2 with hold | rfl
        · rw [type_addChild e0 base _ idx, hcet]
          exact hr2 i j e0 ce0 he0 hold hce0
        · have hceel : ce0 = el := Option.some.inj (hce0.symm.trans hgetel)
          rw [type_addChild e0 base _ idx, hcet, hceel]
          rw [hip] at he0
          exact hparent e0 he0
    · intro i e h1 j hj
      rw [length_updateAt, hlen2]
      obtain ⟨e0, he0, hcase⟩ := get?_updateAt_cases _ _ _ _ _ h1
      rcases hcase with rfl | ⟨hip, rfl⟩
      · have := hb2 i e he0 j hj
        omega
      · rcases childIndices_addChild e0 base _ idx j hj with hold | rfl
        · have := hb2 i e0 he0 j hold
          omega
        · omega
    · intro p hp3
      obtain ⟨ep, hep, hept⟩ := hc2 p hp3
      rcases get?_updateAt_some s2.arena pIdx _ p.2 ep hep with h1 | ⟨-, h1⟩
      · exact ⟨ep, h1, hept⟩
      · exact ⟨_, h1, by rw [type_addChild]; exact hept⟩
    · obtain ⟨r, hr0, hrt⟩ := hp2
      rcases get?_updateAt_some s2.arena pIdx _ rootIdx r hr0 with h1 | ⟨-, h1⟩
      · exact ⟨r, h1, hrt⟩
      · exact ⟨_, h1, by rw [type_addChild]; exact hrt⟩

end ConstitutionStructure

namespace ConstitutionStructure

theorem inv_processElement (s : ProcState) (ts : String) (n ti : Option String)
    (txt : String) (h : Inv s) : Inv (processElement s ts n ti txt) := by
  unfold processElement
  cases hp : parseStructureType ts with
  | none => exact h
  | some t =>
    cases t with
    | PREAMBULO =>
      exact inv_updateAt_keep s rootIdx _ (fun e => rfl) (fun e => rfl) h
    | ADCT =>
      exact inv_updateAt_keep s adctIdx _ (fun e => rfl) (fun e => rfl) h
    | TITULO => exact inv_place_update s StructureType.TITULO n ti txt (by decide) h
    | CAPITULO => exact inv_place_update s StructureType.CAPITULO n ti txt (by decide) h
    | SECAO => exact inv_place_update s StructureType.SECAO n ti txt (by decide) h
    | SUBSECAO => exact inv_place_update s StructureType.SUBSECAO n ti txt (by decide) h
    | ARTIGO => exact inv_place_update s StructureType.ARTIGO n ti txt (by decide) h
    | PARAGRAFO => exact inv_place_update s StructureType.PARAGRAFO n ti txt (by decide) h
    | INCISO => exact inv_place_update s StructureType.INCISO n ti txt (by decide) h
    | ALINEA => exact inv_place_update s StructureType.ALINEA n ti txt (by decide) h

theorem inv_runFrom (inputs : List RawTuple) :
    ∀ s : ProcState, Inv s → Inv (runFrom s inputs) := by
  induction inputs with
  | nil => intro s h; exact h
  | cons tup rest ih =>
    intro s h
    obtain ⟨ts, n, t, txt⟩ := tup
    exact ih _ (inv_processElement s ts n t txt h)

theorem inv_runScraping (inputs : List RawTuple) : Inv (runScraping inputs) :=
  inv_runFrom inputs initState inv_initState

end ConstitutionStructure

namespace Scraper

/-- Rank invariant of the older builder: every stored parent-to-child edge
goes down the hierarchy (`_validate_child` enforces it on every append). -/
def SRankOk (arena : List SElement) : Prop :=
  ∀ i j e ce, arena.get? i = some e → j ∈ e.children →
    arena.get? j = some ce → sIndex e.type < sIndex ce.type

/-- Every stored child reference is inside the arena. -/
def SInBounds (arena : List SElement) : Prop :=
  ∀ i e, arena.get? i = some e → ∀ j ∈ e.children, j < arena.length

/-- The older builder's arena invariant. -/
def SInv (arena : List SElement) : Prop := SRankOk arena ∧ SInBounds arena

theorem sInit_childless :
    ∀ (i : Nat) (e : SElement), sInit.arena.get? i = some e → e.children = [] := by
  intro i e h
  match i with
  | 0 =>
    rw [show sInit.arena.get? 0 =
      some { type := ConstitutionStructure.StructureType.PREAMBULO } from rfl] at h
    rw [← Option.some.inj h]
  | (n + 1) =>
    rw [show sInit.arena.get? (n + 1) = none from rfl] at h
    cases h

theorem sinv_init : SInv sInit.arena := by
  constructor
  · intro i j e ce h1 h2 h3
    rw [sInit_childless i e h1] at h2
    cases h2
  · intro i e h1 j hj
    rw [sInit_childless i e h1] at hj
    cases hj

theorem sinv_append (arena : List SElement) (el : SElement)
    (hch : el.children = []) (h : SInv arena) : SInv (arena ++ [el]) := by
  obtain ⟨hr, hb⟩ := h
  constructor
  · intro i j e ce h1 h2 h3
    rcases get?_append_cases _ _ _ _ h1 with h1o | ⟨hi, hee⟩
    · have hj : j < arena.length := hb i e h1o j h2
      rcases get?_append_cases _ _ _ _ h3 with h3o | ⟨hj2, -⟩
      · exact hr i j e ce h1o h2 h3o
      · omega
    · rw [hee, hch] at h2
      cases h2
  · intro i e h1 j hj
    simp only [List.length_append, List.length_singleton]
    rcases get?_append_cases _ _ _ _ h1 with h1o | ⟨hi, hee⟩
    · have := hb i e h1o j hj
      omega
    · rw [hee, hch] at hj
      cases hj

theorem sinv_sAddChild (st : SState) (pIdx cIdx : Nat) (h : SInv st.arena) :
    SInv (sAddChild st pIdx cIdx).arena := by
  unfold sAddChild
  cases hp : st.arena.get? pIdx with
  | none => exact h
  | some p =>
    cases hc : st.arena.get? cIdx with
    | none => exact h
    | some c =>
      by_cases hv : sIndex p.type < sIndex c.type
      · simp only [hv, if_true]
        have hne : pIdx ≠ cIdx := by
          intro heq
          rw [heq, hc] at hp
          rw [Option.some.inj hp] at hv
          exact lt_irrefl _ hv
        obtain ⟨hr, hb⟩ := h
        set arena1 := updateAt st.arena cIdx
          (fun e => { e with parent := some pIdx }) with ha1
        have ha1get : ∀ j y, arena1.get? j = some y →
            ∃ y0, st.arena.get? j = some y0 ∧ y.type = y0.type ∧
              y.children = y0.children := by
          intro j y hy
          obtain ⟨y0, hy0, hcase⟩ := get?_updateAt_cases _ _ _ _ _ hy
          refine ⟨y0, hy0, ?_, ?_⟩
          · rcases hcase with rfl | ⟨-, rfl⟩ <;> rfl
          · rcases hcase with rfl | ⟨-, rfl⟩ <;> rfl
        have hgetp1 : arena1.get? pIdx = some p := by
          rw [ha1]
          unfold updateAt
          rw [hc, List.get?_eq_getElem?, List.getElem?_set_ne hne.symm,
            ← List.get?_eq_getElem?]
          exact hp
        constructor
        · intro i j e ce h1 h2 h3
          obtain ⟨e1, he1, hcase⟩ := get?_updateAt_cases _ _ _ _ _ h1
          obtain ⟨ce1, hce1, hcase2⟩ := get?_updateAt_cases _ _ _ _ _ h3
          obtain ⟨ce0, hce0, hcet1, -⟩ := ha1get _ _ hce1
          have hcet : ce.type = ce0.type := by
            rcases hcase2 with rfl | ⟨-, rfl⟩
            · exact hcet1
            · exact hcet1
          obtain ⟨e0, he0, het, hech⟩ := ha1get _ _ he1
          rcases hcase with rfl | ⟨hip, rfl⟩
          · rw [hcet, het]
            exact hr i j e0 ce0 he0 (hech ▸ h2) hce0
          · simp only at h2
            rcases List.mem_append.mp h2 with hold | hnew
            · rw [hcet]
              have het2 : ({ e1 with children := e1.children ++ [cIdx] } :
                  SElement).type = e0.type := het
              rw [het2]
              exact hr i j e0 ce0 he0 (hech ▸ hold) hce0
            · have hjc : j = cIdx := List.mem_singleton.mp hnew
              have he1p : e1 = p := by
                rw [hip] at he1
                exact Option.some.inj (he1.symm.trans hgetp1)
              rw [hjc] at hce0
              have hce0c : ce0 = c := Option.some.inj (hce0.symm.trans hc)
              rw [hcet, hce0c]
              have hft : ({ e1 with children := e1.children ++ [cIdx] } :
                  SElement).type = p.type := by rw [he1p]
              rw [hft]
              exact hv
        · intro i e h1 j hj
          rw [length_updateAt, length_updateAt]
          obtain ⟨e1, he1, hcase⟩ := get?_updateAt_cases _ _ _ _ _ h1
          obtain ⟨e0, he0, -, hech⟩ := ha1get _ _ he1
          rcases hcase with rfl | ⟨hip, rfl⟩
          · exact hb i e0 he0 j (hech ▸ hj)
          · simp only at hj
            rcases List.mem_append.mp hj with hold | hnew
            · exact hb i e0 he0 j (hech ▸ hold)
            · have hjc : j = cIdx := List.mem_singleton.mp hnew
              rw [hjc]
              exact get?_lt_length hc
      · simp only [hv, if_false]
        exact h

theorem arena_sUpdateCurrent (st : SState) (idx : Nat) :
    (sUpdateCurrent st idx).arena = st.arena := by
  unfold sUpdateCurrent
  cases st.arena.get? idx <;> rfl

theorem sinv_handlePlacement (fuel : Nat) :
    ∀ (st : SState) (idx : Nat), SInv st.arena →
      SInv (handlePlacement fuel st idx).arena := by
  induction fuel with
  | zero => intro st idx h; exact h
  | succ fuel ih =>
    intro st idx h
    unfold handlePlacement
    cases hg : st.arena.get? idx with
    | none => exact h
    | some e =>
      by_cases hpre : e.type = ConstitutionStructure.StructureType.PREAMBULO
      · simp only [if_pos hpre]
        exact h
      · simp only [if_neg hpre]
        cases hft : findParentType e.type with
        | none => exact h
        | some pt =>
          cases hdf : dictFind st.current pt with
          | some pIdx =>
            simp only [hdf]
            rw [arena_sUpdateCurrent]
            exact sinv_sAddChild _ _ _ h
          | none =>
            simp only [hdf]
            rw [arena_sUpdateCurrent]
            exact sinv_sAddChild _ _ _ (ih _ _ (sinv_append st.arena _ rfl h))

theorem sinv_sProcessElement (st : SState) (ts : String)
    (number title : Option String) (text : String) (h : SInv st.arena) :
    SInv (sProcessElement st ts number title text).arena := by
  unfold sProcessElement
  cases sParse ts with
  | none => exact h
  | some t =>
    by_cases hd : elementId t number ∈ st.processed
    · simp only [if_pos hd]
      exact h
    · simp only [if_neg hd]
      exact sinv_handlePlacement 10 _ _ (sinv_append st.arena _ rfl h)

theorem sinv_sRunFrom (inputs : List ConstitutionStructure.RawTuple) :
    ∀ st : SState, SInv st.arena → SInv (sRunFrom st inputs).arena := by
  induction inputs with
  | nil => intro st h; exact h
  | cons tup rest ih =>
    intro st h
    obtain ⟨ts, n, t, txt⟩ := tup
    exact ih _ (sinv_sProcessElement st ts n t txt h)

theorem sinv_runScraper (inputs : List ConstitutionStructure.RawTuple) :
    SInv (runScraper inputs).arena :=
  sinv_sRunFrom inputs sInit sinv_init

end Scraper

/-- C5: in both builder variants, for every input stream, every stored
parent-to-child edge of the produced tree satisfies
`child.kind.rank > parent.kind.rank` under the fixed rank order
`Preamble(0) < Title(1) < Chapter(2) < Section(3) < Subsection(4) <
Article(5) < Paragraph(6) < Item(7) < SubItem(8)` (`hierarchyLevel` for the
newer variant, the hierarchy index `sIndex` for the older one). -/
theorem rank_invariant_all_edges (inputs : List ConstitutionStructure.RawTuple) :
    ConstitutionStructure.RankOk (ConstitutionStructure.runScraping inputs).arena ∧
    Scraper.SRankOk (Scraper.runScraper inputs).arena :=
  ⟨(ConstitutionStructure.inv_runScraping inputs).1,
    (Scraper.sinv_runScraper inputs).1⟩

namespace ConstitutionStructure

/-- The key number used by `_get_element_key` (lines 167-172): a falsy
(`None` or empty) number gives the plain base key. -/
def keyNumOf : Option String → Option String
  | some n => if n = "" then none else some n
  | none => none

theorem get?_updateAt_ne {γ : Type} (arena : List γ) (i : Nat) (f : γ → γ)
    (j : Nat) (h : j ≠ i) : (updateAt arena i f).get? j = arena.get? j := by
  unfold updateAt
  cases arena.get? i with
  | none => rfl
  | some e =>
    rw [List.get?_eq_getElem?, List.getElem?_set_ne (Ne.symm h),
      ← List.get?_eq_getElem?]

theorem get?_updateAt_self {γ : Type} (arena : List γ) (i : Nat) (f : γ → γ)
    (e : γ) (h : arena.get? i = some e) :
    (updateAt arena i f).get? i = some (f e) := by
  unfold updateAt
  rw [h, List.get?_eq_getElem?, List.getElem?_set_self (get?_lt_length h)]

theorem scanFold_filter (lvl : Nat) (cur : List (StructureType × Nat)) :
    ∀ acc : Nat,
      (cur.filter (fun p => hierarchyLevel p.1 < lvl)).foldl
        (fun a p => if hierarchyLevel p.1 < lvl then p.2 else a) acc =
      cur.foldl (fun a p => if hierarchyLevel p.1 < lvl then p.2 else a) acc := by
  induction cur with
  | nil => intro acc; rfl
  | cons q rest ih =>
    intro acc
    by_cases hq : hierarchyLevel q.1 < lvl
    · rw [List.filter_cons_of_pos (by simpa using hq)]
      simp only [List.foldl_cons, if_pos hq]
      exact ih q.2
    · rw [List.filter_cons_of_neg (by simpa using hq)]
      simp only [List.foldl_cons, if_neg hq]
      exact ih acc

theorem scanParent_insert (cur : List (StructureType × Nat)) (t : StructureType)
    (idx : Nat) :
    scanParent ((cur.filter (fun p => hierarchyLevel p.1 < hierarchyLevel t)) ++
      [(t, idx)]) (hierarchyLevel t) = scanParent cur (hierarchyLevel t) := by
  unfold scanParent
  rw [List.foldl_append]
  simp only [List.foldl_cons, List.foldl_nil, lt_irrefl, if_false]
  exact scanFold_filter (hierarchyLevel t) cur rootIdx

/-- The scan selects the root when no slot lies strictly below `lvl`, and
otherwise an open slot of maximal level strictly below `lvl`. -/
theorem scanParent_max (cur : List (StructureType × Nat)) (lvl : Nat)
    (hsort : CurSorted cur) :
    (cur.filter (fun p => hierarchyLevel p.1 < lvl) = [] ∧
      scanParent cur lvl = rootIdx) ∨
    (∃ p ∈ cur.filter (fun p => hierarchyLevel p.1 < lvl),
      scanParent cur lvl = p.2 ∧
      ∀ q ∈ cur.filter (fun p => hierarchyLevel p.1 < lvl),
        hierarchyLevel q.1 ≤ hierarchyLevel p.1) := by
  rcases scanFoldSpec lvl cur rootIdx with ⟨hf, hacc⟩ | ⟨pre, p, hsplit, hfold⟩
  · exact Or.inl ⟨hf, hacc⟩
  · refine Or.inr ⟨p, ?_, hfold, ?_⟩
    · rw [hsplit]
      exact List.mem_append_right _ (List.mem_singleton_self p)
    · intro q hq
      have hsf : CurSorted (cur.filter (fun p => hierarchyLevel p.1 < lvl)) :=
        hsort.filter _
      rw [hsplit] at hsf hq
      rcases List.mem_append.mp hq with hq1 | hq2
      · exact le_of_lt ((List.pairwise_append.mp hsf).2.2 q hq1 p
          (List.mem_singleton_self p))
      · rcases List.mem_singleton.mp hq2 with rfl
        exact le_rfl

theorem parse_value (t : StructureType) :
    parseStructureType t.value = some t := by
  cases t <;> decide

theorem processElement_eq_place (s : ProcState) (t : StructureType)
    (num title : Option String) (txt : String)
    (h1 : t ≠ StructureType.PREAMBULO) (h2 : t ≠ StructureType.ADCT) :
    processElement s t.value num title txt =
      placeElement (updateStructure
        { s with arena := s.arena ++ [mkElement t num title txt] } t
        s.arena.length) t num s.arena.length := by
  cases t with
  | PREAMBULO => exact absurd rfl h1
  | ADCT => exact absurd rfl h2
  | TITULO => rfl
  | CAPITULO => rfl
  | SECAO => rfl
  | SUBSECAO => rfl
  | ARTIGO => rfl
  | PARAGRAFO => rfl
  | INCISO => rfl
  | ALINEA => rfl

theorem place_step_spec (s : ProcState) (t : StructureType)
    (num title : Option String) (txt : String)
    (hlvl : 1 ≤ hierarchyLevel t) (hinv : Inv s) :
    (placeElement (updateStructure
        { s with arena := s.arena ++ [mkElement t num title txt] } t
        s.arena.length) t num s.arena.length).arena.length =
      s.arena.length + 1 ∧
    (placeElement (updateStructure
        { s with arena := s.arena ++ [mkElement t num title txt] } t
        s.arena.length) t num s.arena.length).arena.get? s.arena.length =
      some (mkElement t num title txt) ∧
    (∀ j, j ≠ scanParent s.current (hierarchyLevel t) → j ≠ s.arena.length →
      (placeElement (updateStructure
        { s with arena := s.arena ++ [mkElement t num title txt] } t
        s.arena.length) t num s.arena.length).arena.get? j = s.arena.get? j) ∧
    (∀ pe, s.arena.get? (scanParent s.current (hierarchyLevel t)) = some pe →
      ∃ base, typeBaseKey t = some base ∧
        (placeElement (updateStructure
          { s with arena := s.arena ++ [mkElement t num title txt] } t
          s.arena.length) t num s.arena.length).arena.get?
            (scanParent s.current (hierarchyLevel t)) =
          some (pe.addChild base (keyNumOf num) s.arena.length)) := by
  obtain ⟨hr, hb, hc, hp⟩ := hinv
  cases hbk : typeBaseKey t with
  | none => exact absurd hbk (typeBaseKey_isSome_of_lvl t hlvl)
  | some base =>
    set el : Element := mkElement t num title txt with hel
    set idx := s.arena.length with hidx
    have hscan2 : scanParent (updateStructure
        { s with arena := s.arena ++ [el] } t idx).current (hierarchyLevel t) =
        scanParent s.current (hierarchyLevel t) := by
      rw [updateStructure_current]
      exact scanParent_insert s.current t idx
    have harena2 : (updateStructure
        { s with arena := s.arena ++ [el] } t idx).arena = s.arena ++ [el] := rfl
    have hplace : (placeElement (updateStructure
        { s with arena := s.arena ++ [el] } t idx) t num idx).arena =
        updateAt (s.arena ++ [el]) (scanParent s.current (hierarchyLevel t))
          (fun e => e.addChild base (keyNumOf num) idx) := by
      unfold placeElement
      rw [hbk]
      simp only [harena2, hscan2]
      rfl
    set pIdx := scanParent s.current (hierarchyLevel t) with hpidx
    have hplt : pIdx < s.arena.length := by
      rcases scanParent_cases s.current (hierarchyLevel t) with hroot | ⟨p, hpmem, -, hpscan⟩
      · rw [hpidx, hroot]
        obtain ⟨r, hr0, -⟩ := hp
        exact get?_lt_length hr0
      · rw [hpidx, hpscan]
        obtain ⟨ep, hep, -⟩ := hc p hpmem
        exact get?_lt_length hep
    have hpne : pIdx ≠ idx := by omega
    refine ⟨?_, ?_, ?_, ?_⟩
    · rw [hplace, length_updateAt]
      simp
    · rw [hplace, get?_updateAt_ne _ _ _ _ (by omega)]
      rw [hidx]
      exact List.get?_concat_length s.arena el
    · intro j hj1 hj2
      rw [hplace, get?_updateAt_ne _ _ _ _ hj1]
      by_cases hjl : j < s.arena.length
      · exact List.get?_append hjl
      · rw [List.get?_eq_none.mpr (by simp; omega),
          List.get?_eq_none.mpr (by omega)]
    · intro pe hpe
      refine ⟨base, rfl, ?_⟩
      rw [hplace]
      exact get?_updateAt_self _ _ _ pe (get?_append_left _ _ _ _ hpe)

end ConstitutionStructure

/-- C4, amended. Newer builder (`_place_element`, lines 194-213): placing a
classified non-root element of rank `r` appends exactly one new node carrying
the tuple's data, changes no other node — in particular it fabricates no
intermediate ancestor — and attaches the new node, under the base key for its
kind, to the parent returned by the `current_structure` scan, which is the
branch root when no open slot has rank strictly below `r` and otherwise an
open slot of maximal rank strictly below `r` (so an Article arriving while
only a Title is open becomes a direct child of that Title). Older builder
(`_get_or_create_parent`, lines 103-151): the claim fails — on
`Title I` then `Article 5` it fabricates a Chapter→Section→Subsection
placeholder chain (7 nodes in all) and hangs the article under the
placeholder Subsection (index 4), not under the Title. -/
theorem placement_parent_by_variant
    (inputs : List ConstitutionStructure.RawTuple)
    (t : ConstitutionStructure.StructureType) (num title : Option String)
    (txt : String)
    (h1 : t ≠ ConstitutionStructure.StructureType.PREAMBULO)
    (h2 : t ≠ ConstitutionStructure.StructureType.ADCT) :
    ((ConstitutionStructure.processElement (ConstitutionStructure.runScraping inputs)
        t.value num title txt).arena.length =
      (ConstitutionStructure.runScraping inputs).arena.length + 1 ∧
     (ConstitutionStructure.processElement (ConstitutionStructure.runScraping inputs)
        t.value num title txt).arena.get?
          (ConstitutionStructure.runScraping inputs).arena.length =
      some (ConstitutionStructure.mkElement t num title txt)) ∧
    (∀ j, j ≠ ConstitutionStructure.scanParent
          (ConstitutionStructure.runScraping inputs).current
          (ConstitutionStructure.hierarchyLevel t) →
        j ≠ (ConstitutionStructure.runScraping inputs).arena.length →
        (ConstitutionStructure.processElement (ConstitutionStructure.runScraping inputs)
          t.value num title txt).arena.get? j =
        (ConstitutionStructure.runScraping inputs).arena.get? j) ∧
    (∀ pe, (ConstitutionStructure.runScraping inputs).arena.get?
          (ConstitutionStructure.scanParent
            (ConstitutionStructure.runScraping inputs).current
            (ConstitutionStructure.hierarchyLevel t)) = some pe →
        ∃ base, ConstitutionStructure.typeBaseKey t = some base ∧
          (ConstitutionStructure.processElement (ConstitutionStructure.runScraping inputs)
            t.value num title txt).arena.get?
              (ConstitutionStructure.scanParent
                (ConstitutionStructure.runScraping inputs).current
                (ConstitutionStructure.hierarchyLevel t)) =
          some (pe.addChild base (ConstitutionStructure.keyNumOf num)
            (ConstitutionStructure.runScraping inputs).arena.length)) ∧
    (((ConstitutionStructure.runScraping inputs).current.filter
          (fun p => ConstitutionStructure.hierarchyLevel p.1 <
            ConstitutionStructure.hierarchyLevel t) = [] ∧
        ConstitutionStructure.scanParent
          (ConstitutionStructure.runScraping inputs).current
          (ConstitutionStructure.hierarchyLevel t) =
          ConstitutionStructure.rootIdx) ∨
      (∃ p ∈ (ConstitutionStructure.runScraping inputs).current.filter
            (fun p => ConstitutionStructure.hierarchyLevel p.1 <
              ConstitutionStructure.hierarchyLevel t),
        ConstitutionStructure.scanParent
          (ConstitutionStructure.runScraping inputs).current
          (ConstitutionStructure.hierarchyLevel t) = p.2 ∧
        ∀ q ∈ (ConstitutionStructure.runScraping inputs).current.filter
            (fun p => ConstitutionStructure.hierarchyLevel p.1 <
              ConstitutionStructure.hierarchyLevel t),
          ConstitutionStructure.hierarchyLevel q.1 ≤
            ConstitutionStructure.hierarchyLevel p.1)) ∧
    ((Scraper.runScraper placeholderScenario).arena.length = 7 ∧
     (Scraper.runScraper placeholderScenario).arena.get? 3 =
       some { type := ConstitutionStructure.StructureType.ARTIGO,
              number := some "5", text := some "a", parent := some 4 }) := by
  have hlvl : 1 ≤ ConstitutionStructure.hierarchyLevel t := by
    cases t <;> first | exact absurd rfl h1 | decide
  have hinv := ConstitutionStructure.inv_runScraping inputs
  have hsort : ConstitutionStructure.CurSorted
      (ConstitutionStructure.runScraping inputs).current :=
    ConstitutionStructure.curSorted_runFrom inputs ConstitutionStructure.initState
      List.Pairwise.nil
  have heq := ConstitutionStructure.processElement_eq_place
    (ConstitutionStructure.runScraping inputs) t num title txt h1 h2
  rw [heq]
  have hspec := ConstitutionStructure.place_step_spec
    (ConstitutionStructure.runScraping inputs) t num title txt hlvl hinv
  exact ⟨⟨hspec.1, hspec.2.1⟩, hspec.2.2.1, hspec.2.2.2,
    ConstitutionStructure.scanParent_max _ _ hsort, by decide, by decide⟩

theorem placement_parent_by_variant_witness :
    ConstitutionStructure.StructureType.ARTIGO ≠
      ConstitutionStructure.StructureType.PREAMBULO ∧
    ConstitutionStructure.StructureType.ARTIGO ≠
      ConstitutionStructure.StructureType.ADCT ∧
    (ConstitutionStructure.runScraping [("TITULO", some "I", none, "tt")]).arena.get?
        (ConstitutionStructure.scanParent
          (ConstitutionStructure.runScraping
            [("TITULO", some "I", none, "tt")]).current
          (ConstitutionStructure.hierarchyLevel
            ConstitutionStructure.StructureType.ARTIGO)) =
      some (ConstitutionStructure.mkElement
        ConstitutionStructure.StructureType.TITULO (some "I") none "tt") ∧
    (∃ base, ConstitutionStructure.typeBaseKey
        ConstitutionStructure.StructureType.ARTIGO = some base ∧
      (ConstitutionStructure.processElement
          (ConstitutionStructure.runScraping [("TITULO", some "I", none, "tt")])
          (ConstitutionStructure.StructureType.ARTIGO).value (some "5") none
          "a").arena.get?
            (ConstitutionStructure.scanParent
              (ConstitutionStructure.runScraping
                [("TITULO", some "I", none, "tt")]).current
              (ConstitutionStructure.hierarchyLevel
                ConstitutionStructure.StructureType.ARTIGO)) =
        some ((ConstitutionStructure.mkElement
            ConstitutionStructure.StructureType.TITULO (some "I") none
            "tt").addChild base (ConstitutionStructure.keyNumOf (some "5"))
          (ConstitutionStructure.runScraping
            [("TITULO", some "I", none, "tt")]).arena.length)) :=
  ⟨by decide, by decide, by decide,
    (placement_parent_by_variant [("TITULO", some "I", none, "tt")]
        ConstitutionStructure.StructureType.ARTIGO (some "5") none "a"
        (by decide) (by decide)).2.2.1
      (ConstitutionStructure.mkElement ConstitutionStructure.StructureType.TITULO
        (some "I") none "tt") (by decide)⟩
